import Mathlib

/-
Verification development for the GitHub issue-mining pipeline
(src/rqs/rq1/mining_issues_script.py).

The Python source is shallowly embedded below: pure text-processing
functions become Lean functions over `List Char` / `String`, the
retry/backoff loop of `github_request` becomes a fuel-indexed recursion
over an abstract response stream, the JSONL cache becomes functions over
optional file contents, and the per-repository processing loop becomes a
recursion over cache entries in which a Python exception is modelled by
an explicit `malformed` entry.  Names follow the source where Lean
permits.
-/

namespace Mining

/-- The Python regex character class `[A-Za-z0-9_]` (ASCII letters, digits,
underscore), used by the word-boundary lookarounds in
`compile_keyword_regexes`. -/
def isWordChar (c : Char) : Bool := c.isAlphanum || c = '_'

/-- ASCII whitespace recognised by Python's `\s` / `str.strip()` for the
character sets occurring in this program. -/
def isPySpace (c : Char) : Bool :=
  c = ' ' || c = '\t' || c = '\n' || c = '\r' || c = '\x0b' || c = '\x0c'

/-- Case-insensitive literal match of `kw` against the front of `s`
(the `re.escape(kw)` core of a compiled keyword pattern under
`re.IGNORECASE`); returns the remaining text on success. -/
def matchFrontCI : List Char → List Char → Option (List Char)
  | [], s => some s
  | _ :: _, [] => none
  | k :: ks, c :: cs => if k.toLower = c.toLower then matchFrontCI ks cs else none

/-- One anchored attempt of a compiled pattern: the literal keyword must
match at the current position and the boundary predicates must accept the
character just before (`prev`) and just after the match. -/
def hitFront (kw : List Char) (lb rb : Option Char → Bool) (prev : Option Char)
    (s : List Char) : Bool :=
  match matchFrontCI kw s with
  | some rest => lb prev && rb rest.head?
  | none => false

/-- `re.search` over all start positions: try the anchored match at every
suffix, tracking the preceding character for the lookbehind. -/
def searchCI (kw : List Char) (lb rb : Option Char → Bool) :
    Option Char → List Char → Bool
  | prev, [] => hitFront kw lb rb prev []
  | prev, c :: cs => hitFront kw lb rb prev (c :: cs) || searchCI kw lb rb (some c) cs

/-- A lookaround of `compile_keyword_regexes`: when `active`, the adjacent
character (if any) must not be a word character; an absent neighbour always
passes, and an inactive lookaround always passes. -/
def boundaryOk (active : Bool) : Option Char → Bool
  | none => true
  | some c => !active || !isWordChar c

/-- `kw[:1].isalnum()` from `compile_keyword_regexes`. -/
def startsAlnum (kw : String) : Bool :=
  match kw.data with
  | [] => false
  | c :: _ => c.isAlphanum

/-- `kw[-1:].isalnum()` from `compile_keyword_regexes`. -/
def endsAlnum (kw : String) : Bool :=
  match kw.data.getLast? with
  | none => false
  | some c => c.isAlphanum

/-- The compiled keyword pattern of `compile_keyword_regexes` applied to a
text: `(?<![A-Za-z0-9_])` is added iff the keyword starts alphanumeric and
`(?![A-Za-z0-9_])` iff it ends alphanumeric; matching is case-insensitive. -/
def kw_matches (kw : String) (t : List Char) : Bool :=
  searchCI kw.data (boundaryOk (startsAlnum kw)) (boundaryOk (endsAlnum kw)) none t

/-- Boundary of `NT_STANDALONE_RE = (?<!\S)nt(?!\S)`: the neighbour must be
absent or whitespace. -/
def spaceBoundary : Option Char → Bool
  | none => true
  | some c => isPySpace c

/-- `NT_QUOTED_RE = re.compile(r'"nt"', re.IGNORECASE)` applied via search. -/
def nt_quoted (t : List Char) : Bool :=
  searchCI ['"', 'n', 't', '"'] (fun _ => true) (fun _ => true) none t

/-- `NT_STANDALONE_RE = re.compile(r'(?<!\S)nt(?!\S)', re.IGNORECASE)`. -/
def nt_standalone (t : List Char) : Bool :=
  searchCI ['n', 't'] spaceBoundary spaceBoundary none t

/-- `CONCEPTS["OS"]` from the source, in order. -/
def OS_KEYWORDS : List String :=
  ["windows", "win32", "win64",
   "linux", "ubuntu", "debian", "fedora", "centos", "rhel", "arch", "alpine", "manjaro",
   "macos", "osx", "os x", "darwin",
   "unix", "posix",
   "freebsd", "openbsd", "netbsd", "dragonflybsd",
   "solaris", "illumos", "aix", "hp-ux",
   "wsl", "cygwin", "msys", "msys2", "mingw", "mingw32", "mingw64"]

/-- `CONCEPTS["FIX"]` from the source, in order. -/
def FIX_KEYWORDS : List String :=
  ["fix", "fixes", "fixed", "bug", "bugfix", "regression",
   "broken", "breakage", "failing", "fail", "fails", "failure",
   "unbreak", "workaround",
   "portable", "portability", "cross-platform", "compatibility",
   "skip", "xfail", "skipif", "pytest.skip", "pytest.mark.skipif", "mark.skipif"]

/-- `CONCEPTS["TEST_CI"]` from the source, in order. -/
def TEST_CI_KEYWORDS : List String :=
  ["test", "tests", "pytest", "unittest", "nose", "tox", "nox",
   "ci", "workflow", "matrix", "runs-on",
   "github actions", "gha", "appveyor", "travis", "azure pipelines", "azure-devops"]

/-- `CONCEPTS["CAUSE"]` from the source, in order. -/
def CAUSE_KEYWORDS : List String :=
  ["line ending", "newline", "crlf", "lf", "carriage return",
   "path separator", "backslash", "slash",
   "case sensitive", "case insensitive",
   "encoding", "utf-8", "latin-1", "cp1252", "locale",
   "timezone", "time zone", "dst",
   "permission denied", "executable", "chmod", "symlink",
   "o_text", "o_binary", "pathext", ".dll", ".so", "dynamic library"]

/-- `CONCEPTS["API"]` from the source, in order. -/
def API_KEYWORDS : List String :=
  ["sys.platform", "os.name", "platform.system", "platform.release",
   "os.sep", "os.path", "pathlib", "ntpath", "posixpath",
   "subprocess", "encoding=", "newline=", "errors=", "universal_newlines"]

/-- Strict lexicographic comparison of character lists by code point, the
order Python's `sorted` uses on strings. -/
def charListLt : List Char → List Char → Bool
  | [], [] => false
  | [], _ :: _ => true
  | _ :: _, [] => false
  | a :: as, b :: bs => if a < b then true else if a = b then charListLt as bs else false

/-- Python `<` on strings. -/
def strLt (a b : String) : Bool := charListLt a.data b.data

/-- Ordered duplicate-dropping insertion, the building block of
`sorted(set(...))`. -/
def insortStr (x : String) : List String → List String
  | [] => [x]
  | y :: ys => if strLt x y then x :: y :: ys else if x = y then y :: ys else y :: insortStr x ys

/-- Python's `sorted(set(l))` for lists of strings. -/
def dedupSort (l : List String) : List String := l.foldr insortStr []

/-- A concept-hit dictionary.  The Python dict maps bucket names to
non-empty keyword lists; here each of the five fixed buckets is a field,
with the empty list standing for an absent key.  (All consumers in the
source - `has_os_and_fix`, `format_concept_hits`, the aggregation in
`sentence_level_artifact_scan` - are insensitive to dict key order, so the
field representation is faithful.) -/
structure Hits where
  OS : List String
  FIX : List String
  TEST_CI : List String
  CAUSE : List String
  API : List String
deriving DecidableEq

/-- The empty hit dictionary. -/
def emptyHits : Hits := ⟨[], [], [], [], []⟩

/-- One bucket of `match_concepts`: keywords whose compiled pattern fires,
then `sorted(set(found))`. -/
def bucketHits (kws : List String) (t : List Char) : List String :=
  dedupSort (kws.filter (fun kw => kw_matches kw t))

/-- The five-bucket dictionary computed by the main loop of
`match_concepts` (`found = [kw for ...]; hits[name] = sorted(set(found))`,
an absent key represented by the empty list). -/
def baseHits (tc : List Char) : Hits :=
  ⟨bucketHits OS_KEYWORDS tc, bucketHits FIX_KEYWORDS tc,
   bucketHits TEST_CI_KEYWORDS tc, bucketHits CAUSE_KEYWORDS tc,
   bucketHits API_KEYWORDS tc⟩

/-- `match_concepts` from the source.  `none` models Python `None`; the
falsy check `if not text` also catches the empty string.  The special
"nt" entry is appended to the OS bucket and re-deduplicated exactly when
one of the two dedicated patterns fires. -/
def match_concepts : Option String → Hits
  | none => emptyHits
  | some t =>
    if t = "" then emptyHits
    else
      if nt_quoted t.data || nt_standalone t.data then
        ⟨dedupSort ((baseHits t.data).OS ++ ["nt"]), (baseHits t.data).FIX,
         (baseHits t.data).TEST_CI, (baseHits t.data).CAUSE, (baseHits t.data).API⟩
      else baseHits t.data

/-- `has_os_and_fix` from the source: both the OS and the FIX bucket are
present (non-empty). -/
def has_os_and_fix (h : Hits) : Bool := !h.OS.isEmpty && !h.FIX.isEmpty

/-- The splitting class of `re.split(r"[\.!?\n]", text)`. -/
def isSplitChar (c : Char) : Bool := c = '.' || c = '!' || c = '?' || c = '\n'

/-- Splitting a character list at every character satisfying `p`,
keeping empty fragments - the behaviour of `re.split` on a single-character
alternation class. -/
def splitOnPAux (p : Char → Bool) (cur : List Char) : List Char → List (List Char)
  | [] => [cur.reverse]
  | c :: cs => if p c then cur.reverse :: splitOnPAux p [] cs else splitOnPAux p (c :: cur) cs

/-- `re.split(r"[\.!?\n]", text)` on the character list of `text`. -/
def splitFrags (t : List Char) : List (List Char) := splitOnPAux isSplitChar [] t

/-- `sentence_level_cooccurrence` from the source: false on falsy input,
otherwise true iff some non-empty fragment's own concept hits contain both
an OS and a FIX keyword. -/
def sentence_level_cooccurrence : Option String → Bool
  | none => false
  | some t =>
    if t = "" then false
    else
      (splitFrags t.data).any
        (fun frag => !frag.isEmpty && has_os_and_fix (match_concepts (some (String.mk frag))))

/-- One `KEY=a|b` part of `format_concept_hits`, empty buckets skipped. -/
def hitPart (name : String) (l : List String) : List String :=
  if l.isEmpty then [] else [name ++ "=" ++ String.intercalate "|" l]

/-- `format_concept_hits` from the source.  The trailing loop over
"additional categories" contributes nothing because the hit dictionary
only ever holds the five fixed buckets. -/
def format_concept_hits (h : Hits) : String :=
  String.intercalate "; "
    (hitPart "OS" h.OS ++ hitPart "FIX" h.FIX ++ hitPart "TEST_CI" h.TEST_CI ++
     hitPart "CAUSE" h.CAUSE ++ hitPart "API" h.API)

/-- Field-wise concatenation: the `aggregated_hits.setdefault(k, []).extend(vals)`
loop of `sentence_level_artifact_scan`. -/
def mergeHits (a b : Hits) : Hits :=
  ⟨a.OS ++ b.OS, a.FIX ++ b.FIX, a.TEST_CI ++ b.TEST_CI, a.CAUSE ++ b.CAUSE, a.API ++ b.API⟩

/-- Truthiness of the hit dictionary (`if hits:`): some bucket non-empty. -/
def hitsNonempty (h : Hits) : Bool :=
  !h.OS.isEmpty || !h.FIX.isEmpty || !h.TEST_CI.isEmpty || !h.CAUSE.isEmpty || !h.API.isEmpty

/-- `{k: sorted(set(v)) for k, v in aggregated_hits.items()}`. -/
def dedupHits (h : Hits) : Hits :=
  ⟨dedupSort h.OS, dedupSort h.FIX, dedupSort h.TEST_CI, dedupSort h.CAUSE, dedupSort h.API⟩

/-- The issue fields consumed by the scanning and row-building code.
`Option` models both an absent key and an explicit `None` (the source
reads every field through `detail.get(...)`).  `user` stands for the
`login` of the user object and `labels` for the label names. -/
structure Issue where
  title : Option String
  body : Option String
  pullRequest : Bool
  number : Option Int
  user : Option String
  labels : Option (List String)
  htmlUrl : Option String
  createdAt : Option String
deriving DecidableEq

/-- The enrichment dictionary returned by `sentence_level_artifact_scan`. -/
structure Finding where
  source : String
  keyword : String
  enrichTitle : String
  enrichBody : String
  enrichComments : List String
deriving DecidableEq

/-- The loop state of the two scanning phases: accumulated hits
(`aggregated_hits`), contributing section names (`source_parts`), and the
proximity flag (`local_ok`). -/
structure ScanState where
  agg : Hits
  sources : List String
  ok : Bool
deriving DecidableEq

/-- The body of the per-blob loop in `sentence_level_artifact_scan`. -/
def scanStep (st : ScanState) (blob : String × String) : ScanState :=
  let hits := match_concepts (some blob.2)
  let st1 : ScanState :=
    if hitsNonempty hits then ⟨mergeHits st.agg hits, st.sources ++ [blob.1], st.ok⟩ else st
  if !st1.ok && sentence_level_cooccurrence (some blob.2) then ⟨st1.agg, st1.sources, true⟩
  else st1

/-- Folding the loop body over a blob list. -/
def scanFold (st : ScanState) (blobs : List (String × String)) : ScanState :=
  blobs.foldl scanStep st

/-- The initial scan state: empty dict, no sources, proximity not yet seen. -/
def scanState0 : ScanState := ⟨emptyHits, [], false⟩

/-- `text_blobs_tb`: the title and body blobs, `None` defaulted to `""`
by `detail.get(...) or ""`. -/
def tbBlobs (d : Issue) : List (String × String) :=
  [("title", d.title.getD ""), ("body", d.body.getD "")]

/-- The comment blobs of Phase 2 (`(preloaded_comments or [])`, each body
defaulted by `body or ""`). -/
def commentBlobs (pc : Option (List (Option String))) : List (String × String) :=
  (pc.getD []).map (fun c => ("comment", c.getD ""))

/-- The state after Phase 1 (title and body scanned). -/
def phase1State (d : Issue) : ScanState := scanFold scanState0 (tbBlobs d)

/-- The emission gate used by both phases:
`aggregated_hits and local_ok and has_os_and_fix({k: sorted(set(v)) ...})`. -/
def gatePass (st : ScanState) : Bool :=
  hitsNonempty st.agg && st.ok && has_os_and_fix (dedupHits st.agg)

/-- `"+".join(sorted(set(parts))) or "title"`. -/
def joinSources (parts : List String) : String :=
  let j := String.intercalate "+" (dedupSort parts)
  if j = "" then "title" else j

/-- The finding dictionary built at an emission point. -/
def mkFinding (d : Issue) (comments : List String) (st : ScanState) : Finding :=
  ⟨joinSources st.sources, format_concept_hits (dedupHits st.agg),
   d.title.getD "", d.body.getD "", comments⟩

/-- `sentence_level_artifact_scan` from the source: Phase 1 scans title and
body and emits early when the gate passes; Phase 2 continues the same fold
over the comment blobs and re-applies the gate; otherwise no finding. -/
def sentence_level_artifact_scan (d : Issue) (pc : Option (List (Option String))) :
    Option Finding :=
  let st_tb := phase1State d
  if gatePass st_tb then some (mkFinding d [] st_tb)
  else
    let st := scanFold st_tb (commentBlobs pc)
    if gatePass st then
      some (mkFinding d ((pc.getD []).map (fun c => c.getD "")) st)
    else none

/-! ### github_request -/

/-- Python `s[:n]` on strings. -/
def pyTake (n : Nat) (s : String) : String := String.mk (s.data.take n)

/-- The response data `github_request` inspects: the status code, whether
`headers.get("X-RateLimit-Remaining") == "0"`, the parsed
`X-RateLimit-Reset` value, and the response text. -/
structure HttpResp where
  status : Nat
  rlRemainingZero : Bool
  rlReset : Int
  body : String
deriving DecidableEq

/-- The observable outcome of `github_request`: either the returned
response or the `RuntimeError` payload (status code and truncated body),
together with the durations passed to `time.sleep` in order, and the
number of requests issued. -/
inductive GHResult where
  | ok : HttpResp → GHResult
  | error : Nat → String → GHResult
deriving DecidableEq

/-- See `GHOutcome.result`. -/
structure GHOutcome where
  result : GHResult
  sleeps : List Int
  attempts : Nat
deriving DecidableEq

/-- `resp.status_code == 403 and resp.headers.get("X-RateLimit-Remaining") == "0"`. -/
def isRateLimited (r : HttpResp) : Prop := r.status = 403 ∧ r.rlRemainingZero = true

instance (r : HttpResp) : Decidable (isRateLimited r) := by
  unfold isRateLimited
  infer_instance

/-- `200 <= resp.status_code < 300`. -/
def isSuccessStatus (r : HttpResp) : Prop := 200 ≤ r.status ∧ r.status < 300

instance (r : HttpResp) : Decidable (isSuccessStatus r) := by
  unfold isSuccessStatus
  infer_instance

/-- `max(0, reset_ts - int(time.time()) + 2)`, the primary-rate-limit wait. -/
def rlWait (r : HttpResp) (now : Int) : Int := max 0 (r.rlReset - now + 2)

/-- The retry loop of `github_request`.  `resp i` is the response to the
`i`-th issued request (network I/O abstracted as a response stream), `now`
the wall clock (`int(time.time())`), `rem` the remaining iterations of
`for _ in range(6)`, `backoff` the current backoff in seconds, and `log`
the sleeps performed so far.  When the loop exhausts, the `RuntimeError`
carries the last response's status and first 200 characters of its body. -/
def github_request_go (resp : Nat → HttpResp) (now : Int) :
    Nat → Nat → Nat → List Int → GHOutcome
  | 0, i, _, log =>
    ⟨GHResult.error (resp (i - 1)).status (pyTake 200 (resp (i - 1)).body), log, i⟩
  | Nat.succ rem, i, backoff, log =>
    let r := resp i
    if isRateLimited r then
      github_request_go resp now rem (i + 1) backoff (log ++ [rlWait r now])
    else if isSuccessStatus r then ⟨GHResult.ok r, log, i + 1⟩
    else github_request_go resp now rem (i + 1) (min (backoff * 2) 60) (log ++ [(backoff : Int)])

/-- `github_request` from the source: six attempts, backoff starting at 2. -/
def github_request (resp : Nat → HttpResp) (now : Int) : GHOutcome :=
  github_request_go resp now 6 0 2 []

/-! ### Repository cache

`json.dumps` / `json.loads` are Python standard-library collaborators, not
code of this repository; the cache functions are therefore parametrised
over a serialiser `dumps` and parser `loads` for the record type, and the
theorems assume the standard-library contract (a left inverse whose output
is a single stripped non-empty line). -/

/-- Python `str.strip()` (ASCII whitespace suffices for this program's
inputs). -/
def pyStrip (s : String) : String :=
  String.mk ((s.data.dropWhile isPySpace).reverse.dropWhile isPySpace |>.reverse)

/-- One line of `load_repo_cache`'s loop: strip, skip falsy lines, parse,
skip parse failures. -/
def cacheLineParse {R : Type} (loads : String → Option R) (line : String) : Option R :=
  let l := pyStrip line
  if l = "" then none else loads l

/-- `load_repo_cache` from the source, over the cache file's state:
`none` models an absent or unreadable file, `some contents` its text.
A zero-size file returns `None`; otherwise each line is stripped, falsy
lines and unparsable lines are skipped, and `records or None` is
returned. -/
def load_repo_cache {R : Type} (loads : String → Option R) : Option String → Option (List R)
  | none => none
  | some contents =>
    if contents = "" then none
    else
      let recs := (splitOnPAux (fun c => c = '\n') [] contents.data).filterMap
        (fun lineChars => cacheLineParse loads (String.mk lineChars))
      if recs.isEmpty then none else some recs

/-- `save_repo_cache` from the source: the written file contents, one
serialised record plus newline per record. -/
def save_repo_cache {R : Type} (dumps : R → String) (records : List R) : String :=
  String.mk (records.map (fun r => (dumps r).data ++ ['\n'])).flatten

/-! ### LLM verdict parsing -/

/-- JSON values as decoded by `json.loads`. -/
inductive JVal where
  | jnull : JVal
  | jbool : Bool → JVal
  | jnum : Int → JVal
  | jstr : String → JVal
  | jarr : List JVal → JVal
  | jobj : List (String × JVal) → JVal

mutual

/-- Python `repr` of a decoded JSON value (string escaping inside
containers elided; no claim depends on it). -/
def pyRepr : JVal → String
  | JVal.jnull => "None"
  | JVal.jbool true => "True"
  | JVal.jbool false => "False"
  | JVal.jnum n => toString n
  | JVal.jstr s => "'" ++ s ++ "'"
  | JVal.jarr l => "[" ++ pyReprList l ++ "]"
  | JVal.jobj l => "\x7b" ++ pyReprObj l ++ "\x7d"

/-- Comma-joined `repr`s of array elements. -/
def pyReprList : List JVal → String
  | [] => ""
  | [v] => pyRepr v
  | v :: rest => pyRepr v ++ ", " ++ pyReprList rest

/-- Comma-joined `repr`s of object entries. -/
def pyReprObj : List (String × JVal) → String
  | [] => ""
  | [(k, v)] => "'" ++ k ++ "': " ++ pyRepr v
  | (k, v) :: rest => "'" ++ k ++ "': " ++ pyRepr v ++ ", " ++ pyReprObj rest

end

/-- Python `str()` of a decoded JSON value. -/
def pyStr : JVal → String
  | JVal.jstr s => s
  | v => pyRepr v

/-- `dict.get` on a decoded JSON object (later duplicate keys win, as in
`json.loads`). -/
def jget (k : String) : List (String × JVal) → Option JVal
  | [] => none
  | p :: rest =>
    match jget k rest with
    | some v => some v
    | none => if p.1 = k then some p.2 else none

/-- `parsed.get(key, default)`. -/
def jgetD (kvs : List (String × JVal)) (k : String) (dflt : JVal) : JVal :=
  match jget k kvs with
  | some v => v
  | none => dflt

/-- Python `str.split()` with no argument: split on whitespace runs,
no empty parts. -/
def pySplitWs (s : String) : List String :=
  ((s.data.splitOnP isPySpace).map String.mk).filter (fun w => w ≠ "")

/-- `s.lower().startswith("y")` for ASCII data. -/
def startsWithY (s : String) : Bool :=
  match s.data with
  | [] => false
  | c :: _ => c.toLower = 'y'

/-- Python `str.isdigit()` for ASCII data: non-empty and all digits. -/
def pyIsDigit (s : String) : Bool := s ≠ "" && s.data.all Char.isDigit

/-- `int(s)` on a digit string. -/
def digitsToNat (s : String) : Nat :=
  s.data.foldl (fun acc c => acc * 10 + (c.toNat - 48)) 0

/-- The four-field analysis result of `call_openai_analyze`. -/
structure Verdict where
  ai_issue_summary : String
  ai_is_os_portability : String
  ai_is_fix_merged : String
  ai_confidence_pct : String
deriving DecidableEq

/-- The conservative default returned on parse failure. -/
def fallbackVerdict : Verdict := ⟨"", "No", "No", "0"⟩

/-- The `Yes`/`No` normalisation applied to the two flag fields. -/
def yesNoOf (v : JVal) : String :=
  if startsWithY (pyStrip (pyStr v)) then "Yes" else "No"

/-- The response-parsing tail of `call_openai_analyze`, applied to the
result of `json.loads` on the model's message content (`none` models a
raised `json.JSONDecodeError`).  A decoded non-object makes `parsed.get`
raise `AttributeError`; both failure paths are caught by the
`except Exception` arm and yield the conservative default. -/
def parse_verdict (parsed : Option JVal) : Verdict :=
  match parsed with
  | some (JVal.jobj kvs) =>
    let rawSummary := pyStrip (pyStr (jgetD kvs "ai_issue_summary" (JVal.jstr "")))
    let summary10 := String.intercalate " " ((pySplitWs rawSummary).take 10)
    let osFlag := yesNoOf (jgetD kvs "ai_is_os_portability" (JVal.jstr "No"))
    let mergedFlag := yesNoOf (jgetD kvs "ai_is_fix_merged" (JVal.jstr "No"))
    let confS := pyStrip (pyStr (jgetD kvs "ai_confidence_pct" (JVal.jstr "0")))
    let confV := if pyIsDigit confS then digitsToNat confS else 0
    ⟨summary10, osFlag, mergedFlag, toString (min 100 (max 0 confV))⟩
  | _ => fallbackVerdict

/-! ### Per-repository processing -/

/-- One parsed line of a repository's cache as consumed by the processing
loop of `process_repo`.  `wellFormed` supplies the issue fields and the
comment-body list; `malformed` stands for any decoded record on which the
loop body raises (for instance a JSON line holding a bare number, making
`rec.get` raise `AttributeError`). -/
inductive CacheEntry where
  | wellFormed : Issue → List (Option String) → CacheEntry
  | malformed : CacheEntry
deriving DecidableEq

/-- An output row of `process_repo` (the CSV columns derived from the
issue; constant columns and the repository-independent defaults are
elided). -/
structure Row where
  repository : String
  source : String
  keyword : String
  summary : String
  link : Option String
  number : Option Int
  author : Option String
  labels : String
  ai : Verdict
deriving DecidableEq

/-- The row constructed for an emitted finding. -/
def rowOf (repo : String) (d : Issue) (f : Finding) (ai : Verdict) : Row :=
  ⟨repo, f.source, f.keyword, pyTake 180 (pyStrip (d.title.getD "")), d.htmlUrl, d.number,
   d.user, String.intercalate "," (d.labels.getD []), ai⟩

/-- The AI fields attached to a row: all-empty when no token is configured,
the verdict on success, and all-empty again when `call_openai_analyze`
raises (the inner `except` arm counts the error and keeps the empty
fields). -/
def aiFieldsOf (aiCall : Option (Issue → Except Unit Verdict)) (d : Issue) : Verdict :=
  match aiCall with
  | none => ⟨"", "", "", ""⟩
  | some g =>
    match g d with
    | Except.ok v => v
    | Except.error _ => ⟨"", "", "", ""⟩

/-- The issue loop of `process_repo` over the repository's records,
wrapped in its `try`/`except`: a `malformed` entry raises, the exception
is caught, the loop stops, the rows accumulated so far are returned, and
the error is logged with the repository identifier (second component). -/
def process_records (repo : String) (aiCall : Option (Issue → Except Unit Verdict)) :
    List CacheEntry → List Row × Option String
  | [] => ([], none)
  | CacheEntry.malformed :: _ => ([], some repo)
  | CacheEntry.wellFormed d comments :: rest =>
    if d.pullRequest then process_records repo aiCall rest
    else
      match sentence_level_artifact_scan d (some comments) with
      | none => process_records repo aiCall rest
      | some f =>
        let tail := process_records repo aiCall rest
        (rowOf repo d f (aiFieldsOf aiCall d) :: tail.1, tail.2)

/-- The collection loop of `main` over completed repository tasks: each
task contributes exactly its own rows, in completion order; no task's
outcome affects another's contribution. -/
def collect_rows (tasks : List (List Row × Option String)) : List Row :=
  (tasks.map (fun t => t.1)).flatten

/-- The non-AI columns of a row, all derived from the issue and the
finding alone. -/
def rowCore (r : Row) :
    String × String × String × String × Option String × Option Int × Option String × String :=
  (r.repository, r.source, r.keyword, r.summary, r.link, r.number, r.author, r.labels)

/-- The `if cached is None` test of `process_repo` deciding whether the
upstream API is contacted. -/
def repo_uses_upstream_fetch {R : Type} (loads : String → Option R)
    (file : Option String) : Bool :=
  (load_repo_cache loads file).isNone

/-! ### Characterisation helpers (used only in statements and proofs) -/

/-- The character preceding position `|p|` when scanning `p ++ ...` with
initial left context `prev`. -/
def prevAt (prev : Option Char) (p : List Char) : Option Char :=
  match p.getLast? with
  | some c => some c
  | none => prev

/-- Every first character of `l` (if any) satisfies `p`. -/
def headSat (p : Char → Bool) (l : List Char) : Prop :=
  ∀ c, l.head? = some c → p c = true

/-- Every last character of `l` (if any) satisfies `p`. -/
def lastSat (p : Char → Bool) (l : List Char) : Prop :=
  ∀ c, l.getLast? = some c → p c = true

/-- A boundary-respecting occurrence of keyword `kw` in `t`, as the
specification describes the compiled patterns: a case-insensitive copy of
the keyword occurs, and on each side where the keyword's edge character is
alphanumeric the neighbouring character (if any) is not a word
character. -/
def occursWB (kw : String) (t : List Char) : Prop :=
  ∃ p m q, t = p ++ m ++ q ∧ matchFrontCI kw.data m = some [] ∧
    boundaryOk (startsAlnum kw) p.getLast? = true ∧
    boundaryOk (endsAlnum kw) q.head? = true

/-! ### Lemmas: the search functions find exactly the occurrences -/

lemma matchFrontCI_some_iff (kw : List Char) :
    ∀ s rest, matchFrontCI kw s = some rest ↔ ∃ m, s = m ++ rest ∧ matchFrontCI kw m = some [] := by
  induction kw with
  | nil =>
    intro s rest
    constructor
    · intro h
      simp only [matchFrontCI, Option.some_inj] at h
      exact ⟨[], by simp [h], rfl⟩
    · rintro ⟨m, hm, hci⟩
      simp only [matchFrontCI, Option.some_inj] at hci
      subst hci
      simpa [matchFrontCI] using hm
  | cons k ks ih =>
    intro s rest
    constructor
    · intro h
      cases s with
      | nil => simp [matchFrontCI] at h
      | cons c cs =>
        simp only [matchFrontCI] at h
        by_cases hc : k.toLower = c.toLower
        · rw [if_pos hc] at h
          obtain ⟨m, hm, hci⟩ := (ih cs rest).mp h
          refine ⟨c :: m, by simp [hm], ?_⟩
          simp [matchFrontCI, if_pos hc, hci]
        · rw [if_neg hc] at h
          exact absurd h (by simp)
    · rintro ⟨m, hm, hci⟩
      cases m with
      | nil => simp [matchFrontCI] at hci
      | cons c m' =>
        simp only [matchFrontCI] at hci
        by_cases hc : k.toLower = c.toLower
        · rw [if_pos hc] at hci
          subst hm
          simp only [List.cons_append, matchFrontCI, if_pos hc]
          exact (ih (m' ++ rest) rest).mpr ⟨m', rfl, hci⟩
        · rw [if_neg hc] at hci
          exact absurd hci (by simp)

lemma hitFront_iff (kw : List Char) (lb rb : Option Char → Bool) (prev : Option Char)
    (s : List Char) :
    hitFront kw lb rb prev s = true ↔
      ∃ m q, s = m ++ q ∧ matchFrontCI kw m = some [] ∧ lb prev = true ∧ rb q.head? = true := by
  unfold hitFront
  constructor
  · intro h
    cases hmf : matchFrontCI kw s with
    | none => rw [hmf] at h; simp at h
    | some rest =>
      rw [hmf] at h
      obtain ⟨m, hm, hci⟩ := (matchFrontCI_some_iff kw s rest).mp hmf
      simp only [Bool.and_eq_true] at h
      exact ⟨m, rest, hm, hci, h.1, h.2⟩
  · rintro ⟨m, q, hs, hci, hlb, hrb⟩
    have : matchFrontCI kw s = some q := (matchFrontCI_some_iff kw s q).mpr ⟨m, hs, hci⟩
    rw [this]
    simp [hlb, hrb]

lemma prevAt_cons (prev : Option Char) (c : Char) (p : List Char) :
    prevAt prev (c :: p) = prevAt (some c) p := by
  cases p with
  | nil => simp [prevAt]
  | cons d p' =>
    unfold prevAt
    rw [List.getLast?_cons_cons]
    cases h : (d :: p').getLast? with
    | none => exact absurd h (by simp)
    | some x => rfl

lemma prevAt_none (p : List Char) : prevAt none p = p.getLast? := by
  unfold prevAt
  cases p.getLast? <;> simp

lemma searchCI_iff (kw : List Char) (lb rb : Option Char → Bool) :
    ∀ s prev, searchCI kw lb rb prev s = true ↔
      ∃ p m q, s = p ++ m ++ q ∧ matchFrontCI kw m = some [] ∧
        lb (prevAt prev p) = true ∧ rb q.head? = true := by
  intro s
  induction s with
  | nil =>
    intro prev
    simp only [searchCI]
    rw [hitFront_iff]
    constructor
    · rintro ⟨m, q, hs, hci, hlb, hrb⟩
      exact ⟨[], m, q, by simp [hs], hci, by simpa [prevAt] using hlb, hrb⟩
    · rintro ⟨p, m, q, hs, hci, hlb, hrb⟩
      have hp : p = [] := by
        cases p with
        | nil => rfl
        | cons a b => simp at hs
      subst hp
      have hmn : m ++ q = [] := by simpa using hs.symm
      exact ⟨m, q, by simp [hmn], hci, by simpa [prevAt] using hlb, hrb⟩
  | cons c cs ih =>
    intro prev
    simp only [searchCI, Bool.or_eq_true]
    rw [hitFront_iff, ih]
    constructor
    · rintro (⟨m, q, hs, hci, hlb, hrb⟩ | ⟨p, m, q, hs, hci, hlb, hrb⟩)
      · exact ⟨[], m, q, by simp [hs], hci, by simpa [prevAt] using hlb, hrb⟩
      · refine ⟨c :: p, m, q, by simp [hs], hci, ?_, hrb⟩
        rw [prevAt_cons]
        exact hlb
    · rintro ⟨p, m, q, hs, hci, hlb, hrb⟩
      cases p with
      | nil =>
        left
        exact ⟨m, q, by simpa using hs, hci, by simpa [prevAt] using hlb, hrb⟩
      | cons a p' =>
        right
        simp only [List.cons_append, List.cons.injEq] at hs
        refine ⟨p', m, q, hs.2, hci, ?_, hrb⟩
        rw [hs.1, ← prevAt_cons prev a p']
        exact hlb

lemma kw_matches_iff (kw : String) (t : List Char) :
    kw_matches kw t = true ↔ occursWB kw t := by
  unfold kw_matches occursWB
  rw [searchCI_iff]
  constructor
  · rintro ⟨p, m, q, hs, hci, hlb, hrb⟩
    exact ⟨p, m, q, hs, hci, by rwa [prevAt_none] at hlb, hrb⟩
  · rintro ⟨p, m, q, hs, hci, hlb, hrb⟩
    exact ⟨p, m, q, hs, hci, by rwa [prevAt_none], hrb⟩

/-! ### Lemmas: sorted-set helper -/

lemma mem_insortStr (a x : String) (l : List String) :
    a ∈ insortStr x l ↔ a = x ∨ a ∈ l := by
  induction l with
  | nil => simp [insortStr]
  | cons y ys ih =>
    unfold insortStr
    split
    · simp [List.mem_cons]
    · split
      · rename_i h2
        subst h2
        simp only [List.mem_cons]
        tauto
      · simp only [List.mem_cons, ih]
        tauto

lemma insortStr_ne_nil (x : String) (l : List String) : insortStr x l ≠ [] := by
  cases l with
  | nil => simp [insortStr]
  | cons y ys =>
    unfold insortStr
    by_cases h1 : strLt x y
    · simp [h1]
    · rw [if_neg h1]
      by_cases h2 : x = y
      · simp [h2]
      · simp [h2]

lemma mem_dedupSort (a : String) (l : List String) : a ∈ dedupSort l ↔ a ∈ l := by
  induction l with
  | nil => simp [dedupSort]
  | cons x xs ih =>
    have : dedupSort (x :: xs) = insortStr x (dedupSort xs) := rfl
    rw [this, mem_insortStr, ih, List.mem_cons]

lemma dedupSort_eq_nil_iff (l : List String) : dedupSort l = [] ↔ l = [] := by
  cases l with
  | nil => simp [dedupSort]
  | cons x xs =>
    have : dedupSort (x :: xs) = insortStr x (dedupSort xs) := rfl
    rw [this]
    simp [insortStr_ne_nil]

/-- `sorted(set(...))` of a list drawn from the three section names is one
of the eight canonical sorted subsets. -/
lemma dedupSort_three_universe (l : List String)
    (h : ∀ x ∈ l, x = "body" ∨ x = "comment" ∨ x = "title") :
    dedupSort l ∈ ([[], ["body"], ["comment"], ["title"], ["body", "comment"],
      ["body", "title"], ["comment", "title"], ["body", "comment", "title"]] :
        List (List String)) := by
  induction l with
  | nil => simp [dedupSort]
  | cons x xs ih =>
    have hstep : dedupSort (x :: xs) = insortStr x (dedupSort xs) := rfl
    have hx := h x (List.mem_cons_self x xs)
    have hxs := ih (fun y hy => h y (List.mem_cons_of_mem x hy))
    rw [hstep]
    simp only [List.mem_cons, List.not_mem_nil, or_false] at hxs
    rcases hx with rfl | rfl | rfl <;>
      rcases hxs with h' | h' | h' | h' | h' | h' | h' | h' <;> rw [h'] <;> decide

/-- `sorted(set(...))` of a list drawn from the two Phase-1 section names. -/
lemma dedupSort_two_universe (l : List String)
    (h : ∀ x ∈ l, x = "body" ∨ x = "title") :
    dedupSort l ∈ ([[], ["body"], ["title"], ["body", "title"]] : List (List String)) := by
  induction l with
  | nil => simp [dedupSort]
  | cons x xs ih =>
    have hstep : dedupSort (x :: xs) = insortStr x (dedupSort xs) := rfl
    have hx := h x (List.mem_cons_self x xs)
    have hxs := ih (fun y hy => h y (List.mem_cons_of_mem x hy))
    rw [hstep]
    simp only [List.mem_cons, List.not_mem_nil, or_false] at hxs
    rcases hx with rfl | rfl <;>
      rcases hxs with h' | h' | h' | h' <;> rw [h'] <;> decide

/-! ### Lemmas: fragment decomposition of the sentence splitter -/

lemma mem_splitOnPAux (p : Char → Bool) :
    ∀ (s cur frag : List Char), frag ∈ splitOnPAux p cur s →
      (∃ rest post, frag = cur.reverse ++ rest ∧ s = rest ++ post ∧ headSat p post) ∨
      (∃ pre post, s = pre ++ frag ++ post ∧ pre ≠ [] ∧ lastSat p pre ∧ headSat p post) := by
  intro s
  induction s with
  | nil =>
    intro cur frag hmem
    simp only [splitOnPAux, List.mem_singleton] at hmem
    subst hmem
    left
    exact ⟨[], [], by simp, by simp, fun c hc => by simp at hc⟩
  | cons c cs ih =>
    intro cur frag hmem
    unfold splitOnPAux at hmem
    by_cases hc : p c
    · rw [if_pos hc] at hmem
      rcases List.mem_cons.mp hmem with rfl | hmem'
      · left
        refine ⟨[], c :: cs, by simp, by simp, ?_⟩
        intro d hd
        simp only [List.head?_cons, Option.some_inj] at hd
        rw [← hd]
        exact hc
      · rcases ih [] frag hmem' with ⟨rest, post, hfrag, hcs, hpost⟩ | ⟨pre, post, hcs, hpre, hlast, hpost⟩
        · right
          refine ⟨[c], post, ?_, by simp, ?_, hpost⟩
          · simp only [List.reverse_nil, List.nil_append] at hfrag
            simp [hcs, hfrag]
          · intro d hd
            simp only [List.getLast?_singleton, Option.some_inj] at hd
            rw [← hd]
            exact hc
        · right
          refine ⟨c :: pre, post, by simp [hcs], by simp, ?_, hpost⟩
          intro d hd
          cases pre with
          | nil => exact absurd rfl hpre
          | cons e pre' =>
            rw [List.getLast?_cons_cons] at hd
            exact hlast d hd
    · rw [if_neg hc] at hmem
      rcases ih (c :: cur) frag hmem with ⟨rest, post, hfrag, hcs, hpost⟩ | ⟨pre, post, hcs, hpre, hlast, hpost⟩
      · left
        refine ⟨c :: rest, post, ?_, by simp [hcs], hpost⟩
        simp only [List.reverse_cons, List.append_assoc] at hfrag
        simpa using hfrag
      · right
        refine ⟨c :: pre, post, by simp [hcs], by simp, ?_, hpost⟩
        intro d hd
        cases pre with
        | nil => exact absurd rfl hpre
        | cons e pre' =>
          rw [List.getLast?_cons_cons] at hd
          exact hlast d hd

/-- Every fragment produced by `splitFrags` sits inside the original text
with a splitting character (or nothing) on each side. -/
lemma mem_splitFrags (s frag : List Char) (hmem : frag ∈ splitFrags s) :
    ∃ pre post, s = pre ++ frag ++ post ∧ lastSat isSplitChar pre ∧ headSat isSplitChar post := by
  rcases mem_splitOnPAux isSplitChar s [] frag hmem with
    ⟨rest, post, hfrag, hs, hpost⟩ | ⟨pre, post, hs, _, hlast, hpost⟩
  · simp only [List.reverse_nil, List.nil_append] at hfrag
    subst hfrag
    exact ⟨[], post, by simpa using hs, fun c hc => by simp at hc, hpost⟩
  · exact ⟨pre, post, hs, hlast, hpost⟩

/-! ### Lemmas: a co-occurring text has a non-empty hit dictionary -/

lemma not_isEmpty_of_ne_nil {α : Type} {l : List α} (h : l ≠ []) : l.isEmpty = false := by
  cases l with
  | nil => exact absurd rfl h
  | cons a l => rfl

lemma eq_nil_of_isEmpty_true {α : Type} {l : List α} (h : l.isEmpty = true) : l = [] := by
  cases l with
  | nil => rfl
  | cons a l => exact absurd h (by simp)

lemma ne_nil_of_isEmpty_false {α : Type} {l : List α} (h : l.isEmpty = false) : l ≠ [] := by
  cases l with
  | nil => exact absurd h (by simp)
  | cons a l => simp

lemma isEmpty_dedupSort (l : List String) : (dedupSort l).isEmpty = l.isEmpty := by
  cases l with
  | nil => rfl
  | cons x xs =>
    have h1 : dedupSort (x :: xs) ≠ [] := by
      rw [Ne, dedupSort_eq_nil_iff]
      simp
    rw [not_isEmpty_of_ne_nil h1]
    rfl

lemma hof_dedupHits (h : Hits) : has_os_and_fix (dedupHits h) = has_os_and_fix h := by
  unfold has_os_and_fix dedupHits
  rw [isEmpty_dedupSort, isEmpty_dedupSort]

lemma bucketHits_sound (kws : List String) (t : List Char) (kw : String)
    (h : kw ∈ bucketHits kws t) : kw ∈ kws ∧ kw_matches kw t = true := by
  unfold bucketHits at h
  rw [mem_dedupSort, List.mem_filter] at h
  exact h

lemma bucketHits_ne_nil (kws : List String) (t : List Char) (kw : String)
    (hkw : kw ∈ kws) (hm : kw_matches kw t = true) : bucketHits kws t ≠ [] := by
  unfold bucketHits
  rw [Ne, dedupSort_eq_nil_iff]
  exact List.ne_nil_of_mem (List.mem_filter.mpr ⟨hkw, hm⟩)

lemma match_concepts_some (t : String) (ht : t ≠ "") :
    match_concepts (some t) =
      if nt_quoted t.data || nt_standalone t.data then
        ⟨dedupSort ((baseHits t.data).OS ++ ["nt"]), (baseHits t.data).FIX,
         (baseHits t.data).TEST_CI, (baseHits t.data).CAUSE, (baseHits t.data).API⟩
      else baseHits t.data := by
  simp only [match_concepts, if_neg ht]

lemma match_concepts_FIX (t : String) (ht : t ≠ "") :
    (match_concepts (some t)).FIX = bucketHits FIX_KEYWORDS t.data := by
  rw [match_concepts_some t ht]
  split <;> rfl

lemma match_concepts_TEST_CI (t : String) (ht : t ≠ "") :
    (match_concepts (some t)).TEST_CI = bucketHits TEST_CI_KEYWORDS t.data := by
  rw [match_concepts_some t ht]
  split <;> rfl

lemma match_concepts_CAUSE (t : String) (ht : t ≠ "") :
    (match_concepts (some t)).CAUSE = bucketHits CAUSE_KEYWORDS t.data := by
  rw [match_concepts_some t ht]
  split <;> rfl

lemma match_concepts_API (t : String) (ht : t ≠ "") :
    (match_concepts (some t)).API = bucketHits API_KEYWORDS t.data := by
  rw [match_concepts_some t ht]
  split <;> rfl

lemma slc_iff_frag (t : String) :
    sentence_level_cooccurrence (some t) = true ↔
      ∃ frag ∈ splitFrags t.data, frag ≠ [] ∧
        has_os_and_fix (match_concepts (some (String.mk frag))) = true := by
  simp only [sentence_level_cooccurrence]
  by_cases ht : t = ""
  · subst ht
    rw [if_pos rfl]
    simp only [Bool.false_eq_true, false_iff]
    rintro ⟨frag, hmem, hne, _⟩
    apply hne
    simp only [splitFrags, splitOnPAux, List.mem_singleton] at hmem
    exact hmem
  · rw [if_neg ht, List.any_eq_true]
    constructor
    · rintro ⟨frag, hmem, hp⟩
      rw [Bool.and_eq_true] at hp
      refine ⟨frag, hmem, ?_, hp.2⟩
      intro hn
      rw [hn] at hp
      simp at hp
    · rintro ⟨frag, hmem, hne, hq⟩
      refine ⟨frag, hmem, ?_⟩
      rw [Bool.and_eq_true, not_isEmpty_of_ne_nil hne]
      exact ⟨rfl, hq⟩

lemma split_not_word (c : Char) (h : isSplitChar c = true) : isWordChar c = false := by
  unfold isSplitChar at h
  simp only [Bool.or_eq_true, decide_eq_true_eq] at h
  rcases h with ((rfl | rfl) | rfl) | rfl <;> decide

lemma boundaryOk_none (a : Bool) : boundaryOk a none = true := by
  cases a <;> rfl

lemma boundaryOk_split (a : Bool) (c : Char) (h : isSplitChar c = true) :
    boundaryOk a (some c) = true := by
  simp only [boundaryOk, split_not_word c h]
  cases a <;> rfl

lemma occursWB_extend (kw : String) (frag pre post : List Char)
    (hocc : occursWB kw frag) (hpre : lastSat isSplitChar pre)
    (hpost : headSat isSplitChar post) : occursWB kw (pre ++ frag ++ post) := by
  obtain ⟨p, m, q, hfrag, hci, hlb, hrb⟩ := hocc
  refine ⟨pre ++ p, m, q ++ post, by simp [hfrag], hci, ?_, ?_⟩
  · cases hp : p with
    | nil =>
      rw [List.append_nil]
      cases hpl : pre.getLast? with
      | none => exact boundaryOk_none _
      | some c => exact boundaryOk_split _ c (hpre c hpl)
    | cons a p' =>
      rw [List.getLast?_append_of_ne_nil pre (by simp)]
      rw [hp] at hlb
      exact hlb
  · cases hq : q with
    | nil =>
      rw [List.nil_append]
      cases hph : post.head? with
      | none => exact boundaryOk_none _
      | some c => exact boundaryOk_split _ c (hpost c hph)
    | cons a q' =>
      rw [List.cons_append, List.head?_cons]
      rw [hq, List.head?_cons] at hrb
      exact hrb

lemma slc_hits_nonempty (t : String) (h : sentence_level_cooccurrence (some t) = true) :
    hitsNonempty (match_concepts (some t)) = true := by
  have ht : t ≠ "" := by
    intro h0
    rw [h0] at h
    simp [sentence_level_cooccurrence] at h
  obtain ⟨frag, hmem, hne, hof⟩ := (slc_iff_frag t).mp h
  have hfragne : String.mk frag ≠ "" := by
    intro h0
    exact hne (by simpa using congrArg String.data h0)
  have hFIXfrag : (match_concepts (some (String.mk frag))).FIX ≠ [] := by
    unfold has_os_and_fix at hof
    rw [Bool.and_eq_true] at hof
    intro h0
    rw [h0] at hof
    simp at hof
  rw [match_concepts_FIX _ hfragne] at hFIXfrag
  obtain ⟨kw, hkwmem⟩ := List.exists_mem_of_ne_nil _ hFIXfrag
  obtain ⟨hkwlist, hkwmatch⟩ := bucketHits_sound _ _ _ hkwmem
  rw [kw_matches_iff] at hkwmatch
  obtain ⟨pre, post, hsplit, hpre, hpost⟩ := mem_splitFrags t.data frag hmem
  have hocc : occursWB kw t.data := by
    rw [hsplit]
    exact occursWB_extend kw frag pre post hkwmatch hpre hpost
  rw [← kw_matches_iff] at hocc
  have hFIX : (match_concepts (some t)).FIX ≠ [] := by
    rw [match_concepts_FIX t ht]
    exact bucketHits_ne_nil _ _ _ hkwlist hocc
  unfold hitsNonempty
  rw [not_isEmpty_of_ne_nil hFIX]
  simp

/-! ### Lemmas: the scanning fold -/

lemma scanStep_ok (st : ScanState) (b : String × String) :
    (scanStep st b).ok = (st.ok || sentence_level_cooccurrence (some b.2)) := by
  unfold scanStep
  cases hok : st.ok <;>
    by_cases h1 : hitsNonempty (match_concepts (some b.2)) <;>
    by_cases h2 : sentence_level_cooccurrence (some b.2) <;>
    simp [h1, h2, hok]

lemma scanStep_sources (st : ScanState) (b : String × String) :
    (scanStep st b).sources =
      if hitsNonempty (match_concepts (some b.2)) then st.sources ++ [b.1] else st.sources := by
  unfold scanStep
  by_cases h1 : hitsNonempty (match_concepts (some b.2)) <;>
    by_cases h2 : sentence_level_cooccurrence (some b.2) <;>
    simp [h1, h2] <;> split <;> rfl

lemma scanStep_agg (st : ScanState) (b : String × String) :
    (scanStep st b).agg =
      if hitsNonempty (match_concepts (some b.2)) then
        mergeHits st.agg (match_concepts (some b.2))
      else st.agg := by
  unfold scanStep
  by_cases h1 : hitsNonempty (match_concepts (some b.2)) <;>
    by_cases h2 : sentence_level_cooccurrence (some b.2) <;>
    simp [h1, h2] <;> split <;> rfl

lemma scanFold_ok :
    ∀ (blobs : List (String × String)) (st : ScanState),
      (scanFold st blobs).ok =
        (st.ok || blobs.any (fun b => sentence_level_cooccurrence (some b.2))) := by
  intro blobs
  induction blobs with
  | nil => intro st; simp [scanFold]
  | cons b bs ih =>
    intro st
    have h1 : scanFold st (b :: bs) = scanFold (scanStep st b) bs := rfl
    rw [h1, ih, scanStep_ok, List.any_cons, Bool.or_assoc]

lemma scanFold_mem_sources :
    ∀ (blobs : List (String × String)) (st : ScanState) (x : String),
      x ∈ (scanFold st blobs).sources ↔
        x ∈ st.sources ∨
          ∃ b ∈ blobs, b.1 = x ∧ hitsNonempty (match_concepts (some b.2)) = true := by
  intro blobs
  induction blobs with
  | nil => intro st x; simp [scanFold]
  | cons b bs ih =>
    intro st x
    have h1 : scanFold st (b :: bs) = scanFold (scanStep st b) bs := rfl
    rw [h1, ih, scanStep_sources]
    by_cases hb : hitsNonempty (match_concepts (some b.2))
    · rw [if_pos hb]
      simp only [List.mem_append, List.mem_cons, List.not_mem_nil, or_false]
      constructor
      · rintro ((hx | rfl) | ⟨c, hc, h⟩)
        · exact Or.inl hx
        · exact Or.inr ⟨b, Or.inl rfl, rfl, hb⟩
        · exact Or.inr ⟨c, Or.inr hc, h⟩
      · rintro (hx | ⟨c, (rfl | hc), h⟩)
        · exact Or.inl (Or.inl hx)
        · exact Or.inl (Or.inr h.1.symm)
        · exact Or.inr ⟨c, hc, h⟩
    · rw [if_neg hb]
      simp only [List.mem_cons]
      constructor
      · rintro (hx | ⟨c, hc, h⟩)
        · exact Or.inl hx
        · exact Or.inr ⟨c, Or.inr hc, h⟩
      · rintro (hx | ⟨c, (rfl | hc), h⟩)
        · exact Or.inl hx
        · exact absurd h.2 hb
        · exact Or.inr ⟨c, hc, h⟩


lemma scanFold_agg_proj (f : Hits → List String)
    (hf : ∀ a b, f (mergeHits a b) = f a ++ f b) :
    ∀ (blobs : List (String × String)) (st : ScanState),
      f (scanFold st blobs).agg ≠ [] →
        f st.agg ≠ [] ∨ ∃ b ∈ blobs, f (match_concepts (some b.2)) ≠ [] := by
  intro blobs
  induction blobs with
  | nil => intro st h; exact Or.inl h
  | cons b bs ih =>
    intro st h
    have h1 : scanFold st (b :: bs) = scanFold (scanStep st b) bs := rfl
    rw [h1] at h
    rcases ih (scanStep st b) h with hstep | ⟨c, hc, hcne⟩
    · rw [scanStep_agg] at hstep
      by_cases hb : hitsNonempty (match_concepts (some b.2))
      · rw [if_pos hb, hf] at hstep
        by_cases hL : f st.agg = []
        · refine Or.inr ⟨b, List.mem_cons_self b bs, ?_⟩
          intro h0
          exact hstep (by rw [hL, h0]; rfl)
        · exact Or.inl hL
      · rw [if_neg hb] at hstep
        exact Or.inl hstep
    · exact Or.inr ⟨c, List.mem_cons_of_mem b hc, hcne⟩

lemma isEmpty_append {α : Type} (l1 l2 : List α) :
    (l1 ++ l2).isEmpty = (l1.isEmpty && l2.isEmpty) := by
  cases l1 <;> simp

lemma hitsNonempty_merge_left (a b : Hits) (h : hitsNonempty a = true) :
    hitsNonempty (mergeHits a b) = true := by
  unfold hitsNonempty mergeHits at *
  simp only [Bool.or_eq_true, Bool.not_eq_true'] at *
  simp only [isEmpty_append, Bool.and_eq_false_iff]
  tauto

lemma hitsNonempty_merge_right (a b : Hits) (h : hitsNonempty b = true) :
    hitsNonempty (mergeHits a b) = true := by
  unfold hitsNonempty mergeHits at *
  simp only [Bool.or_eq_true, Bool.not_eq_true'] at *
  simp only [isEmpty_append, Bool.and_eq_false_iff]
  tauto

lemma scanFold_agg_mono :
    ∀ (blobs : List (String × String)) (st : ScanState),
      hitsNonempty st.agg = true → hitsNonempty (scanFold st blobs).agg = true := by
  intro blobs
  induction blobs with
  | nil => intro st h; exact h
  | cons b bs ih =>
    intro st h
    have h1 : scanFold st (b :: bs) = scanFold (scanStep st b) bs := rfl
    rw [h1]
    apply ih
    rw [scanStep_agg]
    split
    · exact hitsNonempty_merge_left _ _ h
    · exact h

lemma scanFold_agg_of_blob :
    ∀ (blobs : List (String × String)) (st : ScanState) (b : String × String),
      b ∈ blobs → hitsNonempty (match_concepts (some b.2)) = true →
        hitsNonempty (scanFold st blobs).agg = true := by
  intro blobs
  induction blobs with
  | nil => intro st b hb; exact absurd hb (List.not_mem_nil b)
  | cons c cs ih =>
    intro st b hb hne
    have h1 : scanFold st (c :: cs) = scanFold (scanStep st c) cs := rfl
    rw [h1]
    rcases List.mem_cons.mp hb with rfl | hb'
    · apply scanFold_agg_mono
      rw [scanStep_agg, if_pos hne]
      exact hitsNonempty_merge_right _ _ hne
    · exact ih (scanStep st c) b hb' hne

lemma scanFold_sources_ne_nil :
    ∀ (blobs : List (String × String)) (st : ScanState),
      (hitsNonempty st.agg = true → st.sources ≠ []) →
        hitsNonempty (scanFold st blobs).agg = true → (scanFold st blobs).sources ≠ [] := by
  intro blobs
  induction blobs with
  | nil => intro st hinv h; exact hinv h
  | cons b bs ih =>
    intro st hinv h
    have h1 : scanFold st (b :: bs) = scanFold (scanStep st b) bs := rfl
    rw [h1] at h ⊢
    apply ih (scanStep st b) ?_ h
    intro hagg
    rw [scanStep_sources]
    rw [scanStep_agg] at hagg
    by_cases hb : hitsNonempty (match_concepts (some b.2))
    · rw [if_pos hb]
      simp
    · rw [if_neg hb] at hagg ⊢
      exact hinv hagg

/-! ### Lemmas: cache file line structure -/

lemma splitOnPAux_append (p : Char → Bool) :
    ∀ (xs : List Char), (∀ c ∈ xs, p c = false) →
      ∀ (c0 : Char), p c0 = true → ∀ (cur rest : List Char),
        splitOnPAux p cur (xs ++ c0 :: rest) =
          (cur.reverse ++ xs) :: splitOnPAux p [] rest := by
  intro xs
  induction xs with
  | nil =>
    intro _ c0 hc cur rest
    simp only [List.nil_append, splitOnPAux, if_pos hc, List.append_nil]
  | cons x xs' ih =>
    intro h c0 hc cur rest
    have hx : p x = false := h x (List.mem_cons_self x xs')
    simp only [List.cons_append, splitOnPAux, hx, Bool.false_eq_true, if_false, List.append_eq]
    rw [ih (fun c hcm => h c (List.mem_cons_of_mem x hcm)) c0 hc (x :: cur) rest]
    simp

lemma save_repo_cache_split {R : Type} (dumps : R → String)
    (hnl : ∀ r : R, '\n' ∉ (dumps r).data) :
    ∀ records : List R,
      splitOnPAux (fun c => c = '\n') [] (save_repo_cache dumps records).data =
        records.map (fun r => (dumps r).data) ++ [[]] := by
  intro records
  induction records with
  | nil => rfl
  | cons r rs ih =>
    have hdata : (save_repo_cache dumps (r :: rs)).data =
        (dumps r).data ++ '\n' :: (save_repo_cache dumps rs).data := by
      show (((dumps r).data ++ ['\n']) :: rs.map (fun x => (dumps x).data ++ ['\n'])).flatten =
        (dumps r).data ++ '\n' :: (save_repo_cache dumps rs).data
      rw [List.flatten_cons]
      simp [save_repo_cache]
    rw [hdata, splitOnPAux_append (fun c => c = '\n') (dumps r).data
      (fun c hcm => by
        have hcn : c ≠ '\n' := fun hh => hnl r (by rw [← hh]; exact hcm)
        simpa using hcn) '\n' (by simp) [] _, ih]
    simp

lemma filterMap_all_some {α β : Type} (f : α → Option β) (g : α → β) :
    ∀ l : List α, (∀ a ∈ l, f a = some (g a)) → l.filterMap f = l.map g := by
  intro l
  induction l with
  | nil => intro _; rfl
  | cons a l' ih =>
    intro h
    rw [List.filterMap_cons, h a (List.mem_cons_self a l'), List.map_cons,
      ih (fun b hb => h b (List.mem_cons_of_mem a hb))]

lemma save_repo_cache_ne_empty {R : Type} (dumps : R → String) (r : R) (rs : List R) :
    save_repo_cache dumps (r :: rs) ≠ "" := by
  intro h
  have hd := congrArg String.data h
  simp only [save_repo_cache] at hd
  rw [List.map_cons, List.flatten_cons] at hd
  simp at hd

/-! ### Lemmas: unfolding the scan -/

lemma scan_eq (d : Issue) (pc : Option (List (Option String))) :
    sentence_level_artifact_scan d pc =
      if gatePass (phase1State d) then some (mkFinding d [] (phase1State d))
      else
        if gatePass (scanFold (phase1State d) (commentBlobs pc)) then
          some (mkFinding d ((pc.getD []).map (fun c => c.getD ""))
            (scanFold (phase1State d) (commentBlobs pc)))
        else none := rfl

lemma phase1State_eq (d : Issue) : phase1State d = scanFold scanState0 (tbBlobs d) := rfl

lemma gatePass_ok {st : ScanState} (h : gatePass st = true) : st.ok = true := by
  unfold gatePass at h
  rw [Bool.and_eq_true, Bool.and_eq_true] at h
  exact h.1.2

lemma gatePass_agg {st : ScanState} (h : gatePass st = true) : hitsNonempty st.agg = true := by
  unfold gatePass at h
  rw [Bool.and_eq_true, Bool.and_eq_true] at h
  exact h.1.1

lemma gatePass_hof {st : ScanState} (h : gatePass st = true) :
    has_os_and_fix (dedupHits st.agg) = true := by
  unfold gatePass at h
  rw [Bool.and_eq_true] at h
  exact h.2

lemma mem_tbBlobs {d : Issue} {b : String × String} (hb : b ∈ tbBlobs d) :
    b = ("title", d.title.getD "") ∨ b = ("body", d.body.getD "") := by
  rcases List.mem_cons.mp hb with h | h
  · exact Or.inl h
  · rcases List.mem_cons.mp h with h2 | h2
    · exact Or.inr h2
    · exact absurd h2 (List.not_mem_nil b)

lemma mem_commentBlobs {pc : Option (List (Option String))} {b : String × String}
    (hb : b ∈ commentBlobs pc) :
    b.1 = "comment" ∧ ∃ c ∈ pc.getD [], b.2 = c.getD "" := by
  unfold commentBlobs at hb
  obtain ⟨c, hc, rfl⟩ := List.mem_map.mp hb
  exact ⟨rfl, c, hc, rfl⟩

/-! ## Claim theorems -/

/-- C2: `sentence_level_cooccurrence` is true exactly when some non-empty
fragment of the text, split on `.`, `!`, `?` and newline, has concept hits
containing both an OS and a FIX keyword; it is false on null and empty
input; the far-apart example is rejected and the same-sentence example is
accepted. -/
theorem cooccurrence_characterisation :
    (∀ t : String,
      sentence_level_cooccurrence (some t) = true ↔
        ∃ frag ∈ splitFrags t.data, frag ≠ [] ∧
          has_os_and_fix (match_concepts (some (String.mk frag))) = true)
    ∧ sentence_level_cooccurrence none = false
    ∧ sentence_level_cooccurrence (some "") = false
    ∧ sentence_level_cooccurrence
        (some "This fixes a minor bug. On an unrelated note, Windows is a great OS.") = false
    ∧ sentence_level_cooccurrence
        (some "Fix: test fails on windows due to path separator") = true :=
  ⟨slc_iff_frag, rfl, by decide, by decide, by decide⟩

/-- C2 witness: the proximity gate accepts the same-sentence example, via
the characterisation applied to an explicit fragment. -/
theorem cooccurrence_characterisation_witness :
    sentence_level_cooccurrence
      (some "Fix: test fails on windows due to path separator") = true :=
  (cooccurrence_characterisation.1 "Fix: test fails on windows due to path separator").mpr
    ⟨("Fix: test fails on windows due to path separator").data, by decide, by decide, by decide⟩

/-- C1: whenever `sentence_level_artifact_scan` emits a finding, at least
one contributing source text (title, body, or one comment body) contains a
sentence-level fragment whose own concept hits include both an OS and a
FIX keyword. -/
theorem scan_finding_requires_sentence_cooccurrence
    (d : Issue) (pc : Option (List (Option String)))
    (h : (sentence_level_artifact_scan d pc).isSome = true) :
    ∃ t ∈ (d.title.getD "") :: (d.body.getD "") :: (pc.getD []).map (fun c => c.getD ""),
      ∃ frag ∈ splitFrags t.data, frag ≠ [] ∧
        has_os_and_fix (match_concepts (some (String.mk frag))) = true := by
  rw [scan_eq] at h
  have hok : ∃ b ∈ tbBlobs d ++ commentBlobs pc,
      sentence_level_cooccurrence (some b.2) = true := by
    by_cases hg : gatePass (phase1State d) = true
    · have h3 := gatePass_ok hg
      rw [phase1State_eq, scanFold_ok] at h3
      simp only [scanState0, Bool.false_or] at h3
      obtain ⟨b, hb, hslc⟩ := List.any_eq_true.mp h3
      exact ⟨b, List.mem_append.mpr (Or.inl hb), hslc⟩
    · rw [if_neg hg] at h
      by_cases hg2 : gatePass (scanFold (phase1State d) (commentBlobs pc)) = true
      · have h3 := gatePass_ok hg2
        rw [scanFold_ok, phase1State_eq, scanFold_ok] at h3
        simp only [scanState0, Bool.false_or, Bool.or_eq_true] at h3
        rcases h3 with hA | hB
        · obtain ⟨b, hb, hslc⟩ := List.any_eq_true.mp hA
          exact ⟨b, List.mem_append.mpr (Or.inl hb), hslc⟩
        · obtain ⟨b, hb, hslc⟩ := List.any_eq_true.mp hB
          exact ⟨b, List.mem_append.mpr (Or.inr hb), hslc⟩
      · rw [if_neg hg2] at h
        simp at h
  obtain ⟨b, hb, hslc⟩ := hok
  rcases List.mem_append.mp hb with htb | hcm
  · rcases mem_tbBlobs htb with rfl | rfl
    · obtain ⟨frag, hf1, hf2, hf3⟩ := (slc_iff_frag _).mp hslc
      exact ⟨d.title.getD "", List.mem_cons_self _ _, frag, hf1, hf2, hf3⟩
    · obtain ⟨frag, hf1, hf2, hf3⟩ := (slc_iff_frag _).mp hslc
      exact ⟨d.body.getD "", List.mem_cons_of_mem _ (List.mem_cons_self _ _),
        frag, hf1, hf2, hf3⟩
  · obtain ⟨hname, c, hc, hbc⟩ := mem_commentBlobs hcm
    rw [hbc] at hslc
    obtain ⟨frag, hf1, hf2, hf3⟩ := (slc_iff_frag _).mp hslc
    refine ⟨c.getD "", ?_, frag, hf1, hf2, hf3⟩
    exact List.mem_cons_of_mem _ (List.mem_cons_of_mem _ (List.mem_map.mpr ⟨c, hc, rfl⟩))

/-- C1 witness: the invariant evaluated on a concrete issue whose title
passes both gates. -/
theorem scan_finding_requires_sentence_cooccurrence_witness :
    ∃ t ∈ (["Fix: test fails on windows", ""] : List String),
      ∃ frag ∈ splitFrags t.data, frag ≠ [] ∧
        has_os_and_fix (match_concepts (some (String.mk frag))) = true :=
  scan_finding_requires_sentence_cooccurrence
    ⟨some "Fix: test fails on windows", some "", false, none, none, none, none, none⟩
    (some []) (by decide)

/-- C10: the scanner treats absent or null title, body and comment bodies
as empty strings (so it returns normally, `none` or a finding, on every
such input - in this embedding both sides are total functions), and the
matcher returns the empty hit dictionary on null input and the proximity
gate is false there. -/
theorem scan_total_on_missing_fields :
    (∀ (t b : Option String) (pr : Bool) (n : Option Int) (u : Option String)
        (lb : Option (List String)) (hu ca : Option String)
        (pc : Option (List (Option String))),
      sentence_level_artifact_scan ⟨t, b, pr, n, u, lb, hu, ca⟩ pc =
        sentence_level_artifact_scan
          ⟨some (t.getD ""), some (b.getD ""), pr, none, none, none, none, none⟩
          (some ((pc.getD []).map (fun c => some (c.getD "")))))
    ∧ match_concepts none = emptyHits
    ∧ sentence_level_cooccurrence none = false := by
  refine ⟨?_, rfl, rfl⟩
  intro t b pr n u lb hu ca pc
  have hfun : ((fun c : Option String => ("comment", c.getD "")) ∘
      fun c : Option String => some (c.getD "")) =
        (fun c : Option String => ("comment", c.getD "")) := funext (fun c => rfl)
  have hfun2 : ((fun c : Option String => c.getD "") ∘
      fun c : Option String => some (c.getD "")) =
        (fun c : Option String => c.getD "") := funext (fun c => rfl)
  have hcb : commentBlobs (some ((pc.getD []).map (fun c => some (c.getD "")))) =
      commentBlobs pc := by
    unfold commentBlobs
    show ((pc.getD []).map (fun c => some (c.getD ""))).map
      (fun c => ("comment", c.getD "")) = _
    rw [List.map_map, hfun]
  have hcm : (((some ((pc.getD []).map (fun c => some (c.getD "")))).getD []).map
      (fun c : Option String => c.getD "")) = (pc.getD []).map (fun c => c.getD "") := by
    show ((pc.getD []).map (fun c => some (c.getD ""))).map (fun c => c.getD "") = _
    rw [List.map_map, hfun2]
  rw [scan_eq, scan_eq, hcb, hcm]
  rfl

/-- C4 counterexample: a stream of six primary-rate-limit responses IS
surfaced to the caller - each rate-limit retry consumes one of the six
loop iterations, so after six such responses `github_request` raises the
transport error with status 403, contradicting the claim that rate-limit
conditions are never surfaced and that the retry is not counted. -/
theorem rate_limit_exhaustion_surfaces_error :
    github_request (fun _ => ⟨403, true, 0, "rate limited"⟩) 0 =
      ⟨GHResult.error 403 "rate limited", [2, 2, 2, 2, 2, 2], 6⟩ := by decide

/-- C4 amended: `github_request` returns the first success immediately with
no sleeps; six plain failures exhaust the attempts with backoff sleeps
2, 4, 8, 16, 32, 60 and raise a transport error carrying the last status
and the body truncated to 200 characters; a rate-limited response sleeps
until its reset time plus 2 and is retried without advancing the backoff
and without being surfaced, but it does consume one of the six total
attempts - six consecutive rate-limited responses surface the error. -/
theorem github_request_retry_behaviour (resp : Nat → HttpResp) (now : Int) :
    (isSuccessStatus (resp 0) →
      github_request resp now = ⟨GHResult.ok (resp 0), [], 1⟩)
    ∧ ((∀ i, i < 6 → ¬isRateLimited (resp i) ∧ ¬isSuccessStatus (resp i)) →
      github_request resp now =
        ⟨GHResult.error (resp 5).status (pyTake 200 (resp 5).body),
         [2, 4, 8, 16, 32, 60], 6⟩)
    ∧ (isRateLimited (resp 0) → isSuccessStatus (resp 1) →
      github_request resp now = ⟨GHResult.ok (resp 1), [rlWait (resp 0) now], 2⟩)
    ∧ ((∀ i, i < 6 → isRateLimited (resp i)) →
      github_request resp now =
        ⟨GHResult.error (resp 5).status (pyTake 200 (resp 5).body),
         [rlWait (resp 0) now, rlWait (resp 1) now, rlWait (resp 2) now,
          rlWait (resp 3) now, rlWait (resp 4) now, rlWait (resp 5) now], 6⟩) := by
  refine ⟨?_, ?_, ?_, ?_⟩
  · intro h
    have hnr : ¬isRateLimited (resp 0) := by
      intro hr
      rw [isRateLimited] at hr
      rw [isSuccessStatus, hr.1] at h
      omega
    simp only [github_request, github_request_go, hnr, h, if_true, if_false]
  · intro h
    have h0 := h 0 (by norm_num)
    have h1 := h 1 (by norm_num)
    have h2 := h 2 (by norm_num)
    have h3 := h 3 (by norm_num)
    have h4 := h 4 (by norm_num)
    have h5 := h 5 (by norm_num)
    simp only [github_request, github_request_go, h0.1, h0.2, h1.1, h1.2, h2.1, h2.2,
      h3.1, h3.2, h4.1, h4.2, h5.1, h5.2, if_false]
    norm_num
  · intro h0 h1
    have hnr : ¬isRateLimited (resp 1) := by
      intro hr
      rw [isRateLimited] at hr
      rw [isSuccessStatus, hr.1] at h1
      omega
    simp only [github_request, github_request_go, h0, h1, hnr, if_true, if_false]
    norm_num
  · intro h
    have h0 := h 0 (by norm_num)
    have h1 := h 1 (by norm_num)
    have h2 := h 2 (by norm_num)
    have h3 := h 3 (by norm_num)
    have h4 := h 4 (by norm_num)
    have h5 := h 5 (by norm_num)
    simp only [github_request, github_request_go, h0, h1, h2, h3, h4, h5, if_true]
    norm_num

/-- Membership in a bucket implies membership in its keyword list together
with a boundary-respecting occurrence in the text. -/
lemma bucketHits_occurs (kws : List String) (t : List Char) (kw : String)
    (h : kw ∈ bucketHits kws t) : kw ∈ kws ∧ occursWB kw t := by
  obtain ⟨h1, h2⟩ := bucketHits_sound kws t kw h
  exact ⟨h1, (kw_matches_iff kw t).mp h2⟩

/-- C4 witness: the amended behaviour evaluated on concrete streams - an
immediate success, and a rate-limited response followed by a success. -/
theorem github_request_retry_behaviour_witness :
    github_request (fun _ => ⟨200, false, 0, "ok"⟩) 0 =
      ⟨GHResult.ok ⟨200, false, 0, "ok"⟩, [], 1⟩
    ∧ github_request
        (fun i => if i = 0 then ⟨403, true, 10, "limit"⟩ else ⟨201, false, 0, "created"⟩) 5 =
      ⟨GHResult.ok ⟨201, false, 0, "created"⟩, [7], 2⟩ := by
  constructor
  · exact (github_request_retry_behaviour (fun _ => ⟨200, false, 0, "ok"⟩) 0).1 (by decide)
  · have h := (github_request_retry_behaviour
      (fun i => if i = 0 then ⟨403, true, 10, "limit"⟩ else ⟨201, false, 0, "created"⟩) 5).2.2.1
      (by decide) (by decide)
    simpa using h

/-- C5: every keyword reported by `match_concepts` comes from its bucket's
keyword list via a boundary-respecting, case-insensitive occurrence
(word-character lookarounds exactly on alphanumeric keyword edges), except
"nt", which enters the OS bucket exactly under its quoted-or-standalone
rule; concretely, "search is nice" yields no "arch" hit, ".dll" matches
inside "libfoo.dll" while bare "dll" yields no CAUSE hit, matching is
case-insensitive, and "this is important content" yields no "nt" hit. -/
theorem match_concepts_boundary_soundness :
    (∀ (t kw : String), kw ∈ (match_concepts (some t)).FIX →
      kw ∈ FIX_KEYWORDS ∧ occursWB kw t.data)
    ∧ (∀ (t kw : String), kw ∈ (match_concepts (some t)).TEST_CI →
      kw ∈ TEST_CI_KEYWORDS ∧ occursWB kw t.data)
    ∧ (∀ (t kw : String), kw ∈ (match_concepts (some t)).CAUSE →
      kw ∈ CAUSE_KEYWORDS ∧ occursWB kw t.data)
    ∧ (∀ (t kw : String), kw ∈ (match_concepts (some t)).API →
      kw ∈ API_KEYWORDS ∧ occursWB kw t.data)
    ∧ (∀ (t kw : String), kw ∈ (match_concepts (some t)).OS →
      (kw ∈ OS_KEYWORDS ∧ occursWB kw t.data) ∨
        (kw = "nt" ∧ (nt_quoted t.data = true ∨ nt_standalone t.data = true)))
    ∧ "arch" ∉ (match_concepts (some "search is nice")).OS
    ∧ ".dll" ∈ (match_concepts (some "libfoo.dll")).CAUSE
    ∧ (match_concepts (some "dll")).CAUSE = []
    ∧ "windows" ∈ (match_concepts (some "Broken on WINDOWS")).OS
    ∧ "nt" ∉ (match_concepts (some "this is important content")).OS := by
  refine ⟨?_, ?_, ?_, ?_, ?_, by decide, by decide, by decide, by decide, by decide⟩
  · intro t kw hmem
    by_cases ht : t = ""
    · subst ht
      rw [show match_concepts (some "") = emptyHits from rfl] at hmem
      exact absurd hmem (List.not_mem_nil kw)
    · rw [match_concepts_FIX t ht] at hmem
      exact bucketHits_occurs _ _ _ hmem
  · intro t kw hmem
    by_cases ht : t = ""
    · subst ht
      rw [show match_concepts (some "") = emptyHits from rfl] at hmem
      exact absurd hmem (List.not_mem_nil kw)
    · rw [match_concepts_TEST_CI t ht] at hmem
      exact bucketHits_occurs _ _ _ hmem
  · intro t kw hmem
    by_cases ht : t = ""
    · subst ht
      rw [show match_concepts (some "") = emptyHits from rfl] at hmem
      exact absurd hmem (List.not_mem_nil kw)
    · rw [match_concepts_CAUSE t ht] at hmem
      exact bucketHits_occurs _ _ _ hmem
  · intro t kw hmem
    by_cases ht : t = ""
    · subst ht
      rw [show match_concepts (some "") = emptyHits from rfl] at hmem
      exact absurd hmem (List.not_mem_nil kw)
    · rw [match_concepts_API t ht] at hmem
      exact bucketHits_occurs _ _ _ hmem
  · intro t kw hmem
    by_cases ht : t = ""
    · subst ht
      rw [show match_concepts (some "") = emptyHits from rfl] at hmem
      exact absurd hmem (List.not_mem_nil kw)
    · rw [match_concepts_some t ht] at hmem
      by_cases hnt : (nt_quoted t.data || nt_standalone t.data) = true
      · rw [if_pos hnt] at hmem
        have hmem2 : kw ∈ (baseHits t.data).OS ++ ["nt"] := by
          have := (mem_dedupSort kw _).mp hmem
          exact this
        rcases List.mem_append.mp hmem2 with hos | hntm
        · exact Or.inl (bucketHits_occurs _ _ _ hos)
        · right
          refine ⟨by simpa using hntm, ?_⟩
          rcases (by simpa using hnt :
            nt_quoted t.data = true ∨ nt_standalone t.data = true) with hq | hs
          · exact Or.inl hq
          · exact Or.inr hs
      · rw [if_neg hnt] at hmem
        exact Or.inl (bucketHits_occurs _ _ _ hmem)

/-- C5 witness: the soundness statement evaluated at ".dll" occurring in
"libfoo.dll". -/
theorem match_concepts_boundary_soundness_witness :
    ".dll" ∈ CAUSE_KEYWORDS ∧ occursWB ".dll" ("libfoo.dll").data :=
  match_concepts_boundary_soundness.2.2.1 "libfoo.dll" ".dll" (by decide)

/-- C3 counterexample: an issue whose title and body alone satisfy both
gates produces the source tag "body+title" (the contributing section names
sorted alphabetically and joined by "+"), not "title+body" as claimed. -/
theorem phase1_source_not_title_body :
    gatePass (phase1State ⟨some "fix fails on windows", some "broken tests on linux",
      false, none, none, none, none, none⟩) = true
    ∧ (sentence_level_artifact_scan
        ⟨some "fix fails on windows", some "broken tests on linux",
          false, none, none, none, none, none⟩ (some [])).map (fun f => f.source) =
        some "body+title"
    ∧ "body+title" ≠ "title+body" :=
  ⟨by decide, by decide, by decide⟩

/-- Every Phase-1 section name is "title" or "body". -/
lemma phase1_sources_sub (d : Issue) :
    ∀ x ∈ (phase1State d).sources, x = "body" ∨ x = "title" := by
  intro x hx
  rw [phase1State_eq] at hx
  rcases (scanFold_mem_sources _ _ x).mp hx with hx2 | ⟨b3, hb3, hb3x, _⟩
  · exact absurd hx2 (List.not_mem_nil x)
  · rcases mem_tbBlobs hb3 with rfl | rfl
    · exact Or.inr hb3x.symm
    · exact Or.inl hb3x.symm

/-- Every Phase-2 section name is "body", "comment" or "title". -/
lemma phase2_sources_sub (d : Issue) (pc : Option (List (Option String))) :
    ∀ x ∈ (scanFold (phase1State d) (commentBlobs pc)).sources,
      x = "body" ∨ x = "comment" ∨ x = "title" := by
  intro x hx
  rcases (scanFold_mem_sources _ _ x).mp hx with hx1 | ⟨b2, hb2, hb2x, _⟩
  · rcases phase1_sources_sub d x hx1 with hb | ht
    · exact Or.inl hb
    · exact Or.inr (Or.inr ht)
  · exact Or.inr (Or.inl ((mem_commentBlobs hb2).1.symm.trans hb2x).symm)

/-- A finding not already emitted by Phase 1 always has a contributing
comment section. -/
lemma phase2_comment_contributes (d : Issue) (pc : Option (List (Option String)))
    (hg : ¬gatePass (phase1State d) = true)
    (hg2 : gatePass (scanFold (phase1State d) (commentBlobs pc)) = true) :
    "comment" ∈ (scanFold (phase1State d) (commentBlobs pc)).sources := by
  by_cases hoktb : (phase1State d).ok = true
  · have hanyt : (tbBlobs d).any
        (fun b => sentence_level_cooccurrence (some b.2)) = true := by
      have h3 := hoktb
      rw [phase1State_eq, scanFold_ok] at h3
      simpa [scanState0] using h3
    obtain ⟨b, hbmem, hbslc⟩ := List.any_eq_true.mp hanyt
    have hA : hitsNonempty (phase1State d).agg = true := by
      rw [phase1State_eq]
      exact scanFold_agg_of_blob _ _ b hbmem (slc_hits_nonempty _ hbslc)
    have hC : has_os_and_fix (dedupHits (phase1State d).agg) = false := by
      by_contra hCc
      apply hg
      unfold gatePass
      simp only [Bool.not_eq_false] at hCc
      rw [hA, hoktb, hCc]
      rfl
    rw [hof_dedupHits] at hC
    have hofst := gatePass_hof hg2
    rw [hof_dedupHits] at hofst
    unfold has_os_and_fix at hC hofst
    rw [Bool.and_eq_true] at hofst
    have hOSst : (scanFold (phase1State d) (commentBlobs pc)).agg.OS ≠ [] :=
      ne_nil_of_isEmpty_false (by simpa using hofst.1)
    have hFIXst : (scanFold (phase1State d) (commentBlobs pc)).agg.FIX ≠ [] :=
      ne_nil_of_isEmpty_false (by simpa using hofst.2)
    have hCsplit : (phase1State d).agg.OS.isEmpty = true ∨
        (phase1State d).agg.FIX.isEmpty = true := by
      rcases hb1 : (phase1State d).agg.OS.isEmpty with _ | _
      · rcases hb2 : (phase1State d).agg.FIX.isEmpty with _ | _
        · rw [hb1, hb2] at hC
          simp at hC
        · exact Or.inr rfl
      · exact Or.inl rfl
    have key : ∃ b2 ∈ commentBlobs pc, hitsNonempty (match_concepts (some b2.2)) = true := by
      rcases hCsplit with hOS | hFIX
      · have hOSnil : (phase1State d).agg.OS = [] := eq_nil_of_isEmpty_true hOS
        rcases scanFold_agg_proj Hits.OS (fun a b => rfl) (commentBlobs pc)
            (phase1State d) hOSst with htb | ⟨b2, hb2, hb2ne⟩
        · exact absurd hOSnil htb
        · refine ⟨b2, hb2, ?_⟩
          unfold hitsNonempty
          rw [not_isEmpty_of_ne_nil hb2ne]
          simp
      · have hFIXnil : (phase1State d).agg.FIX = [] := eq_nil_of_isEmpty_true hFIX
        rcases scanFold_agg_proj Hits.FIX (fun a b => rfl) (commentBlobs pc)
            (phase1State d) hFIXst with htb | ⟨b2, hb2, hb2ne⟩
        · exact absurd hFIXnil htb
        · refine ⟨b2, hb2, ?_⟩
          unfold hitsNonempty
          rw [not_isEmpty_of_ne_nil hb2ne]
          simp
    obtain ⟨b2, hb2, hb2hits⟩ := key
    exact (scanFold_mem_sources (commentBlobs pc) (phase1State d) "comment").mpr
      (Or.inr ⟨b2, hb2, (mem_commentBlobs hb2).1, hb2hits⟩)
  · have hoktbf : (phase1State d).ok = false := by
      cases hh : (phase1State d).ok
      · rfl
      · exact absurd hh hoktb
    have hokst := gatePass_ok hg2
    rw [scanFold_ok, hoktbf, Bool.false_or] at hokst
    obtain ⟨b2, hb2, hb2slc⟩ := List.any_eq_true.mp hokst
    exact (scanFold_mem_sources (commentBlobs pc) (phase1State d) "comment").mpr
      (Or.inr ⟨b2, hb2, (mem_commentBlobs hb2).1, slc_hits_nonempty _ hb2slc⟩)

/-- C3 amended: a finding emitted by Phase 1 (title and body alone satisfy
both gates) carries as source the "+"-join of the alphabetically sorted
set of contributing sections among title and body - "title", "body" or
"body+title" - and never mentions comments; a finding emitted only by
Phase 2 always includes "comment" in its source tag. -/
theorem scan_source_sections (d : Issue) (pc : Option (List (Option String)))
    (f : Finding) (h : sentence_level_artifact_scan d pc = some f) :
    (gatePass (phase1State d) = true →
      f.source ∈ (["title", "body", "body+title"] : List String))
    ∧ (gatePass (phase1State d) = false →
      f.source ∈ (["comment", "body+comment", "comment+title",
        "body+comment+title"] : List String)) := by
  rw [scan_eq] at h
  by_cases hg : gatePass (phase1State d) = true
  · rw [if_pos hg] at h
    have hf : f = mkFinding d [] (phase1State d) := (Option.some.inj h).symm
    subst hf
    constructor
    · intro _
      have hagg := gatePass_agg hg
      have hne : (phase1State d).sources ≠ [] := by
        rw [phase1State_eq] at hagg ⊢
        refine scanFold_sources_ne_nil _ _ ?_ hagg
        intro habs
        exact absurd habs (by decide)
      have h4 := dedupSort_two_universe _ (phase1_sources_sub d)
      have hdne : dedupSort (phase1State d).sources ≠ [] := by
        rw [Ne, dedupSort_eq_nil_iff]
        exact hne
      simp only [List.mem_cons, List.not_mem_nil, or_false] at h4
      show joinSources (phase1State d).sources ∈ _
      unfold joinSources
      rcases h4 with h0 | h0 | h0 | h0
      · exact absurd h0 hdne
      · rw [h0]
        decide
      · rw [h0]
        decide
      · rw [h0]
        decide
    · intro hgf
      rw [hg] at hgf
      exact absurd hgf (by decide)
  · rw [if_neg hg] at h
    by_cases hg2 : gatePass (scanFold (phase1State d) (commentBlobs pc)) = true
    · rw [if_pos hg2] at h
      have hf : f = mkFinding d ((pc.getD []).map (fun c => c.getD ""))
          (scanFold (phase1State d) (commentBlobs pc)) := (Option.some.inj h).symm
      subst hf
      constructor
      · intro hgt
        exact absurd hgt hg
      · intro _
        have hcmem := phase2_comment_contributes d pc hg hg2
        have hcd : "comment" ∈
            dedupSort (scanFold (phase1State d) (commentBlobs pc)).sources :=
          (mem_dedupSort _ _).mpr hcmem
        have h8 := dedupSort_three_universe _ (phase2_sources_sub d pc)
        simp only [List.mem_cons, List.not_mem_nil, or_false] at h8
        show joinSources (scanFold (phase1State d) (commentBlobs pc)).sources ∈ _
        unfold joinSources
        rcases h8 with h0 | h0 | h0 | h0 | h0 | h0 | h0 | h0 <;> rw [h0] at hcd ⊢
        · exact absurd hcd (by decide)
        · exact absurd hcd (by decide)
        · decide
        · exact absurd hcd (by decide)
        · decide
        · exact absurd hcd (by decide)
        · decide
        · decide
    · rw [if_neg hg2] at h
      exact absurd h (by simp)

/-- C3 witness: the amended source rule evaluated on an issue whose title
and body both contribute. -/
theorem scan_source_sections_witness :
    ("body+title" : String) ∈ (["title", "body", "body+title"] : List String) :=
  (scan_source_sections
    ⟨some "fix fails on windows", some "broken tests on linux",
      false, none, none, none, none, none⟩ (some [])
    ⟨"body+title", "OS=linux|windows; FIX=broken|fails|fix; TEST_CI=tests",
      "fix fails on windows", "broken tests on linux", []⟩
    (by decide)).1 (by decide)

/-- C6 counterexample: with a concrete serialiser, saving the empty record
list and loading it back yields a cache miss (`None`), not the empty
list - so the round-trip does not hold for every record list. -/
theorem cache_roundtrip_empty_fails :
    load_repo_cache
      (fun s => if s = "true" then some true else if s = "false" then some false else none)
      (some (save_repo_cache (fun b : Bool => if b then "true" else "false") [])) = none
    ∧ (none : Option (List Bool)) ≠ some [] :=
  ⟨by decide, by decide⟩

lemma load_repo_cache_some {R : Type} (loads : String → Option R) (contents : String) :
    load_repo_cache loads (some contents) =
      if contents = "" then none
      else
        let recs := (splitOnPAux (fun c => c = '\n') [] contents.data).filterMap
          (fun lineChars => cacheLineParse loads (String.mk lineChars))
        if recs.isEmpty then none else some recs := rfl

/-- C6 amended: for every serialiser/parser pair satisfying the standard
JSON-library contract (the parser inverts the serialiser, whose output is
a non-empty, stripped, newline-free line) and every NON-EMPTY record list,
`save_repo_cache` followed by `load_repo_cache` returns exactly the
records, in order; the load returns `None` on an absent, unreadable or
empty file, and skips individual unparsable lines. -/
theorem cache_roundtrip_nonempty (R : Type) (dumps : R → String)
    (loads : String → Option R)
    (hinv : ∀ r, loads (dumps r) = some r)
    (hstrip : ∀ r, pyStrip (dumps r) = dumps r)
    (hne : ∀ r, dumps r ≠ "")
    (hnl : ∀ r, '\n' ∉ (dumps r).data) :
    (∀ records : List R, records ≠ [] →
      load_repo_cache loads (some (save_repo_cache dumps records)) = some records)
    ∧ load_repo_cache loads none = none
    ∧ load_repo_cache loads (some "") = none
    ∧ (∀ (r1 r2 : R) (bad : String), '\n' ∉ bad.data →
        cacheLineParse loads bad = none →
        load_repo_cache loads
          (some (String.mk ((dumps r1).data ++ ('\n' :: (bad.data ++ ('\n' ::
            ((dumps r2).data ++ ['\n']))))))) = some [r1, r2]) := by
  have hline : ∀ r : R, cacheLineParse loads (dumps r) = some r := by
    intro r
    unfold cacheLineParse
    rw [hstrip r, if_neg (hne r), hinv r]
  refine ⟨?_, rfl, by rw [load_repo_cache_some, if_pos rfl], ?_⟩
  · intro records hrec
    obtain ⟨r0, rs, rfl⟩ : ∃ r0 rs, records = r0 :: rs := by
      cases records with
      | nil => exact absurd rfl hrec
      | cons r0 rs => exact ⟨r0, rs, rfl⟩
    have hfm : (splitOnPAux (fun c => c = '\n') []
        (save_repo_cache dumps (r0 :: rs)).data).filterMap
        (fun lineChars => cacheLineParse loads (String.mk lineChars)) = r0 :: rs := by
      rw [save_repo_cache_split dumps hnl (r0 :: rs), List.filterMap_append,
        List.filterMap_map]
      have hcomp : List.filterMap
          ((fun lineChars => cacheLineParse loads (String.mk lineChars)) ∘
            fun r => (dumps r).data) (r0 :: rs) = (r0 :: rs).map id :=
        filterMap_all_some _ id _ (fun a _ => hline a)
      rw [hcomp, List.map_id,
        show ([([] : List Char)]).filterMap
          (fun lineChars => cacheLineParse loads (String.mk lineChars)) = [] from rfl]
      simp
    rw [load_repo_cache_some, if_neg (save_repo_cache_ne_empty dumps r0 rs)]
    dsimp only
    rw [hfm]
    rfl
  · intro r1 r2 bad hbadnl hbadparse
    have hsplit3 : splitOnPAux (fun c => c = '\n') []
        ((dumps r1).data ++ ('\n' :: (bad.data ++ ('\n' ::
          ((dumps r2).data ++ ['\n']))))) =
        [(dumps r1).data, bad.data, (dumps r2).data, []] := by
      rw [splitOnPAux_append (fun c => c = '\n') (dumps r1).data
        (fun c hcm => by
          have hcn : c ≠ '\n' := fun hh => hnl r1 (by rw [← hh]; exact hcm)
          simpa using hcn) '\n' (by simp) [] _]
      rw [splitOnPAux_append (fun c => c = '\n') bad.data
        (fun c hcm => by
          have hcn : c ≠ '\n' := fun hh => hbadnl (by rw [← hh]; exact hcm)
          simpa using hcn) '\n' (by simp) [] _]
      rw [show (dumps r2).data ++ ['\n'] = (dumps r2).data ++ '\n' :: [] from rfl]
      rw [splitOnPAux_append (fun c => c = '\n') (dumps r2).data
        (fun c hcm => by
          have hcn : c ≠ '\n' := fun hh => hnl r2 (by rw [← hh]; exact hcm)
          simpa using hcn) '\n' (by simp) [] _]
      rfl
    have hfm2 : ([(dumps r1).data, bad.data, (dumps r2).data, []]).filterMap
        (fun lineChars => cacheLineParse loads (String.mk lineChars)) = [r1, r2] := by
      rw [List.filterMap_cons, List.filterMap_cons, List.filterMap_cons,
        List.filterMap_cons,
        show String.mk (dumps r1).data = dumps r1 from rfl, hline r1,
        show String.mk bad.data = bad from rfl, hbadparse,
        show String.mk (dumps r2).data = dumps r2 from rfl, hline r2]
      rfl
    rw [load_repo_cache_some, if_neg ?_]
    · dsimp only
      rw [hsplit3, hfm2]
      rfl
    · intro habs
      have hd := congrArg String.data habs
      simp at hd

/-- C6 witness: the amended round-trip evaluated with a concrete
serialiser on a two-record list. -/
theorem cache_roundtrip_nonempty_witness :
    load_repo_cache
      (fun s => if s = "true" then some true else if s = "false" then some false else none)
      (some (save_repo_cache (fun b : Bool => if b then "true" else "false")
        [true, false])) = some [true, false] :=
  (cache_roundtrip_nonempty Bool (fun b => if b then "true" else "false")
    (fun s => if s = "true" then some true else if s = "false" then some false else none)
    (by decide) (by decide) (by decide) (by decide)).1 [true, false] (by simp)

/-- C9: a saved empty record list - and more generally any cache file in
which every line fails to parse - is reported by `load_repo_cache` as a
miss (`None`), so `process_repo` takes its upstream-fetch branch for such
a repository on every run. -/
theorem empty_cache_treated_as_miss (R : Type) (dumps : R → String)
    (loads : String → Option R) :
    load_repo_cache loads (some (save_repo_cache dumps ([] : List R))) = none
    ∧ (∀ contents : String,
        (∀ line ∈ splitOnPAux (fun c => c = '\n') [] contents.data,
          cacheLineParse loads (String.mk line) = none) →
        load_repo_cache loads (some contents) = none)
    ∧ repo_uses_upstream_fetch loads
        (some (save_repo_cache dumps ([] : List R))) = true := by
  have hsave : save_repo_cache dumps ([] : List R) = "" := rfl
  refine ⟨?_, ?_, ?_⟩
  · rw [hsave, load_repo_cache_some, if_pos rfl]
  · intro contents hall
    rw [load_repo_cache_some]
    by_cases hc : contents = ""
    · rw [if_pos hc]
    · rw [if_neg hc]
      dsimp only
      rw [show (splitOnPAux (fun c => c = '\n') [] contents.data).filterMap
          (fun lineChars => cacheLineParse loads (String.mk lineChars)) = [] from
        List.filterMap_eq_nil_iff.mpr hall]
      rfl
  · unfold repo_uses_upstream_fetch
    rw [hsave, load_repo_cache_some, if_pos rfl]
    rfl

/-- C9 witness: a cache file whose single line is unparsable for a
concrete parser loads as a miss. -/
theorem empty_cache_treated_as_miss_witness :
    load_repo_cache
      (fun s => if s = "true" then some true else if s = "false" then some false else none)
      (some "xyz") = none :=
  (empty_cache_treated_as_miss Bool (fun b => if b then "true" else "false")
    (fun s => if s = "true" then some true else if s = "false" then some false else none)).2.1
    "xyz" (by decide)

/-! ### Processing loop -/

lemma process_records_eq_wf (repo : String) (aiCall : Option (Issue → Except Unit Verdict))
    (d : Issue) (comments : List (Option String)) (rest : List CacheEntry) :
    process_records repo aiCall (CacheEntry.wellFormed d comments :: rest) =
      if d.pullRequest then process_records repo aiCall rest
      else
        match sentence_level_artifact_scan d (some comments) with
        | none => process_records repo aiCall rest
        | some f =>
          (rowOf repo d f (aiFieldsOf aiCall d) :: (process_records repo aiCall rest).1,
            (process_records repo aiCall rest).2) := rfl

/-- C8 counterexample: a repository task whose second cache record raises
still contributes the row found before the exception - one row, not
zero - while the exception is caught and logged with the repository
identifier. -/
theorem task_exception_partial_rows :
    (process_records "demo/repo" none
      [CacheEntry.wellFormed
        ⟨some "Fix: test fails on windows", some "", false, none, none, none, none, none⟩ [],
       CacheEntry.malformed]).1.length = 1
    ∧ (process_records "demo/repo" none
      [CacheEntry.wellFormed
        ⟨some "Fix: test fails on windows", some "", false, none, none, none, none, none⟩ [],
       CacheEntry.malformed]).2 = some "demo/repo" :=
  ⟨by decide, by decide⟩

/-- C8 amended: a raising record is caught and logged with the repository
identifier, processing of that repository stops there, the rows
accumulated before the exception (possibly none, possibly some) are still
contributed, no error is logged when no record raises, and each task's
contribution to the collected output is independent of its siblings. -/
theorem task_exception_handling :
    (∀ (repo : String) (aiCall : Option (Issue → Except Unit Verdict))
        (pre post : List CacheEntry), CacheEntry.malformed ∉ pre →
      process_records repo aiCall (pre ++ CacheEntry.malformed :: post) =
        ((process_records repo aiCall pre).1, some repo))
    ∧ (∀ (repo : String) (aiCall : Option (Issue → Except Unit Verdict))
        (recs : List CacheEntry), CacheEntry.malformed ∉ recs →
        (process_records repo aiCall recs).2 = none)
    ∧ (∀ (pre post : List (List Row × Option String)) (bad : List Row × Option String),
        collect_rows (pre ++ bad :: post) =
          collect_rows pre ++ bad.1 ++ collect_rows post) := by
  refine ⟨?_, ?_, ?_⟩
  · intro repo aiCall pre
    induction pre with
    | nil =>
      intro post _
      rfl
    | cons e pre' ih =>
      intro post hmem
      have hene : e ≠ CacheEntry.malformed := by
        intro he
        exact hmem (by rw [he]; exact List.mem_cons_self _ _)
      have hpre' : CacheEntry.malformed ∉ pre' :=
        fun hh => hmem (List.mem_cons_of_mem _ hh)
      cases e with
      | malformed => exact absurd rfl hene
      | wellFormed d comments =>
        rw [List.cons_append, process_records_eq_wf, process_records_eq_wf]
        by_cases hpr : d.pullRequest
        · rw [if_pos hpr, if_pos hpr, ih post hpre']
        · rw [if_neg hpr, if_neg hpr]
          cases hscan : sentence_level_artifact_scan d (some comments) with
          | none =>
            dsimp only
            rw [ih post hpre']
          | some f =>
            dsimp only
            rw [ih post hpre']
  · intro repo aiCall recs
    induction recs with
    | nil => intro _; rfl
    | cons e recs' ih =>
      intro hmem
      have hene : e ≠ CacheEntry.malformed := by
        intro he
        exact hmem (by rw [he]; exact List.mem_cons_self _ _)
      have hrecs' : CacheEntry.malformed ∉ recs' :=
        fun hh => hmem (List.mem_cons_of_mem _ hh)
      cases e with
      | malformed => exact absurd rfl hene
      | wellFormed d comments =>
        rw [process_records_eq_wf]
        by_cases hpr : d.pullRequest
        · rw [if_pos hpr]
          exact ih hrecs'
        · rw [if_neg hpr]
          cases hscan : sentence_level_artifact_scan d (some comments) with
          | none =>
            dsimp only
            exact ih hrecs'
          | some f =>
            dsimp only
            exact ih hrecs'
  · intro pre post bad
    simp [collect_rows]

/-- C8 witness: the amended behaviour evaluated on a concrete record list
with one finding before the raising record. -/
theorem task_exception_handling_witness :
    process_records "demo/repo" none
      ([CacheEntry.wellFormed
        ⟨some "Fix: test fails on windows", some "", false, none, none, none, none, none⟩ []] ++
        CacheEntry.malformed :: []) =
      ((process_records "demo/repo" none
        [CacheEntry.wellFormed
          ⟨some "Fix: test fails on windows", some "", false, none, none, none, none, none⟩ []]).1,
        some "demo/repo") :=
  task_exception_handling.1 "demo/repo" none
    [CacheEntry.wellFormed
      ⟨some "Fix: test fails on windows", some "", false, none, none, none, none, none⟩ []]
    [] (by decide)

/-- C7: parsing a validation response whose content is not a JSON object
yields the conservative default verdict (empty summary, "No", "No", "0")
without raising, and the non-AI content of the emitted rows - in
particular which findings are emitted - is identical for every AI
configuration, so a malformed verdict never blocks emission of the
underlying finding. -/
theorem malformed_verdict_defaults :
    (∀ parsed : Option JVal, (∀ kvs, parsed ≠ some (JVal.jobj kvs)) →
      parse_verdict parsed = fallbackVerdict)
    ∧ (∀ (repo : String) (aiF aiG : Option (Issue → Except Unit Verdict))
        (recs : List CacheEntry),
        (process_records repo aiF recs).1.map rowCore =
          (process_records repo aiG recs).1.map rowCore) := by
  constructor
  · intro parsed hno
    cases parsed with
    | none => rfl
    | some v =>
      cases v with
      | jobj kvs => exact absurd rfl (hno kvs)
      | jnull => rfl
      | jbool b => rfl
      | jnum n => rfl
      | jstr s0 => rfl
      | jarr l => rfl
  · intro repo aiF aiG recs
    induction recs with
    | nil => rfl
    | cons e recs' ih =>
      cases e with
      | malformed => rfl
      | wellFormed d comments =>
        rw [process_records_eq_wf, process_records_eq_wf]
        by_cases hpr : d.pullRequest
        · rw [if_pos hpr, if_pos hpr]
          exact ih
        · rw [if_neg hpr, if_neg hpr]
          cases hscan : sentence_level_artifact_scan d (some comments) with
          | none =>
            dsimp only
            exact ih
          | some f =>
            dsimp only
            rw [List.map_cons, List.map_cons, ih]
            rfl

/-- C7 witness: the default verdict on a concrete non-object response
content. -/
theorem malformed_verdict_defaults_witness :
    parse_verdict (some (JVal.jstr "not an object")) = fallbackVerdict :=
  malformed_verdict_defaults.1 (some (JVal.jstr "not an object"))
    (fun _kvs h => JVal.noConfusion (Option.some.inj h))

end Mining
